import Mathlib

/-!
Verification development for the `learn_axolotl` repository.

The repository is a single tutorial notebook (`notebooks/01_getting_started.ipynb`)
that stages GenBank files for the external BiG-SLICE application:

* `start_new_spark_session` stops any existing Spark context, creates the event-log
  directory, and builds a fresh configured Spark session;
* a manifest cell globs `*/antismash/*region*.gbk` under a hard-coded dataset
  directory, creates the parent directory of the manifest file, and writes one
  matched path per line;
* `gbk_to_bigslice_app` loads annotation records from the files listed in the
  manifest (with `skip_malformed_record=True`), writes them as a partitioned table
  with `overwrite=True, num_partitions=5`, deletes the BigsliceApp workspace
  directory if it exists, reads the table back, and constructs the app with
  `source_type="antismash"`.

We embed this shallowly: the file system is an explicit state (text files,
directories, partitioned table artifacts, plus a read-only path set so that write
failures are representable), paths are segment lists, and each notebook operation
is a state transformer that also emits a trace event.  Operations implemented by
external libraries (the record loader, the table writer, the application builder)
are modelled from the specification's contracts for them, as noted in their doc
comments; everything else is translated from the notebook source (and, for
`Path.glob`, from CPython's `pathlib` semantics, which the notebook relies on).
-/

namespace LearnAxolotl

/-- A file-system path, as a list of name segments (root-relative). -/
def FPath := List String
deriving DecidableEq, Inhabited

/-- Boolean prefix test on lists (used for path containment and trace prefixes). -/
def isPrefixL {α : Type} [DecidableEq α] : List α → List α → Bool
  | [], _ => true
  | _ :: _, [] => false
  | a :: as, b :: bs => if a = b then isPrefixL as bs else false

/-- `pfxL q p` means the directory `q` is `p` itself or an ancestor of `p`. -/
def pfxL (q p : FPath) : Bool := isPrefixL q p

/-- Boolean list membership for paths. -/
def elemP (p : FPath) : List FPath → Bool
  | [] => false
  | q :: qs => if q = p then true else elemP p qs

/-- First value stored under key `p` in an association list. -/
def findA {β : Type} : List (FPath × β) → FPath → Option β
  | [], _ => none
  | e :: es, p => if e.1 = p then some e.2 else findA es p

/-- Remove every entry with key `p`. -/
def eraseA {β : Type} : List (FPath × β) → FPath → List (FPath × β)
  | [], _ => []
  | e :: es, p => if e.1 = p then eraseA es p else e :: eraseA es p

/-- Store `b` under key `p`, replacing any previous entries for `p`. -/
def setA {β : Type} (l : List (FPath × β)) (p : FPath) (b : β) : List (FPath × β) :=
  (p, b) :: eraseA l p

/-- Number of entries stored under key `p`. -/
def countKey {β : Type} : List (FPath × β) → FPath → Nat
  | [], _ => 0
  | e :: es, p => (if e.1 = p then 1 else 0) + countKey es p

/-- All prefixes of a path, from the root `[]` up to the path itself
(the directories `mkdir(parents=True)` would create). -/
def prefixesOf (p : FPath) : List FPath :=
  (List.range (p.length + 1)).map (fun n => p.take n)

/-- Parent directory of a path. -/
def parentOf (p : FPath) : FPath := p.dropLast

/-- Boolean membership of a character in a character list. -/
def hasC (a : Char) : List Char → Bool
  | [] => false
  | c :: cs => if c = a then true else hasC a cs

/-- Split a character list at every occurrence of `sep`; always returns at least
one (possibly empty) piece, like splitting text into lines. -/
def splitOnC (sep : Char) : List Char → List (List Char)
  | [] => [[]]
  | c :: cs =>
    match splitOnC sep cs with
    | [] => [[c]]
    | l :: ls => if c = sep then [] :: l :: ls else (c :: l) :: ls

/-- Render a path the way `str(Path(...))` does: segments joined by `/`. -/
def pathChars : FPath → List Char
  | [] => []
  | [s] => s.data
  | s :: t :: r => s.data ++ '/' :: pathChars (t :: r)

/-- Parse a rendered path back into segments (split at `/`). -/
def parsePathChars (c : List Char) : FPath :=
  (splitOnC '/' c).map String.mk

/-- A segment is representable if it is nonempty and free of `/` and newlines. -/
def validSeg (s : String) : Bool :=
  !s.data.isEmpty && !hasC '/' s.data && !hasC '\n' s.data

/-- A path is representable if it is nonempty and all segments are representable. -/
def validPath (p : FPath) : Bool :=
  !p.isEmpty && p.all validSeg

/-- Content of the manifest file: each path rendered and newline-terminated, in
order (the notebook's `f.writelines(str(dataset) + '\n' for dataset in datasets)`). -/
def manifestContent : List FPath → List Char
  | [] => []
  | d :: ds => pathChars d ++ '\n' :: manifestContent ds

/-- Paths listed in a manifest file: its nonempty lines, parsed back to paths. -/
def manifestPaths (c : List Char) : List FPath :=
  ((splitOnC '\n' c).filter (fun l => !l.isEmpty)).map parsePathChars

/-- Fuelled worker for `segMatch`; the fuel strictly exceeds the combined length
of pattern and name, so the out-of-fuel branch is never taken. -/
def segMatchF : Nat → List Char → List Char → Bool
  | 0, _, _ => false
  | _ + 1, [], [] => true
  | _ + 1, [], _ :: _ => false
  | n + 1, p :: ps, [] => if p = '*' then segMatchF n ps [] else false
  | n + 1, p :: ps, c :: cs =>
    if p = '*' then segMatchF n ps (c :: cs) || segMatchF n (p :: ps) cs
    else if p = c then segMatchF n ps cs else false

/-- `fnmatch`-style match of one glob pattern segment against one name, where `*`
matches any (possibly empty) run of characters within the segment. -/
def segMatch (pat s : List Char) : Bool :=
  segMatchF (pat.length + s.length + 1) pat s

/-- Segment-wise glob match of a pattern against a relative path. -/
def sectionsMatch : List String → List String → Bool
  | [], [] => true
  | p :: ps, s :: ss => segMatch p.data s.data && sectionsMatch ps ss
  | _, _ => false

/-- One parsed record of a GenBank file, as the external parser reports it:
an opaque payload plus whether the record was well-formed. -/
structure GRec where
  content : String
  ok : Bool
deriving DecidableEq

/-- A text file on disk, together with the record list the external parser
would extract from it (empty for files that are not record inputs). -/
structure FileData where
  chars : List Char
  recs : List GRec
deriving DecidableEq

/-- A partitioned columnar table artifact: its rows (each tagged with the source
file it came from) and its partition count. -/
structure TableData where
  rows : List (FPath × GRec)
  parts : Nat
deriving DecidableEq

/-- The constructed analysis application: the table it was built from and the
source-type tag passed through to the builder. -/
structure BigsliceAppObj where
  table : TableData
  sourceType : String
deriving DecidableEq

/-- Error taxonomy of the staging pipeline. -/
inductive Err
  | NotFoundError (p : FPath)
  | IOError (p : FPath)
  | WriteError (p : FPath)
  | ExternalCollaboratorError (msg : String)
deriving DecidableEq

/-- Trace events: one per pipeline step that completed, with the configuration
that step actually used. -/
inductive Event
  | discover (root : FPath) (pat : List String)
  | writeManifest (dest : FPath)
  | loadRecords (manifest : FPath) (skipMalformed : Bool) (minParts : Nat)
  | writeTable (dest : FPath) (overwrite : Bool) (parts : Nat)
  | clearWorkspace (ws : FPath)
  | createApp (ws : FPath) (sourceType : String)
  | stopSession
  | buildSession (master appName : String) (cores : Nat) (memory : String)
      (partitions : Nat) (logDir : FPath)
deriving DecidableEq

/-- The file-system state: text files, directories, table artifacts, and the
set of read-only locations (writes under them fail). -/
structure FS where
  files : List (FPath × FileData)
  dirs : List FPath
  tables : List (FPath × TableData)
  roPaths : List FPath
deriving DecidableEq

/-- A destination is writable unless some read-only path contains it. -/
def writable (fs : FS) (p : FPath) : Bool :=
  !fs.roPaths.any (fun r => pfxL r p)

/-- Does `p` exist as a directory? -/
def isDir (fs : FS) (p : FPath) : Bool := elemP p fs.dirs

/-- Does anything (file, directory, or table artifact) exist at `p`? -/
def entryExists (fs : FS) (p : FPath) : Bool :=
  (findA fs.files p).isSome || elemP p fs.dirs || (findA fs.tables p).isSome

/-- `d.mkdir(parents=True, exist_ok=True)`: create `d` and all its ancestors;
idempotent when they already exist. -/
def mkdirParents (fs : FS) (d : FPath) : FS :=
  { fs with dirs := fs.dirs ++ (prefixesOf d).filter (fun q => !elemP q fs.dirs) }

/-- `open(p, 'w')` followed by writing `c`: truncate/replace the file at `p`.
Fails with `IOError` when the destination is read-only. -/
def writeFile (fs : FS) (p : FPath) (c : List Char) : Except Err FS :=
  if writable fs p then
    .ok { fs with files := setA fs.files p ⟨c, []⟩ }
  else .error (.IOError p)

/-- `shutil.rmtree(p)`: remove the whole subtree rooted at `p`. -/
def rmtree (fs : FS) (p : FPath) : FS :=
  { fs with
    files := fs.files.filter (fun e => !pfxL p e.1),
    dirs := fs.dirs.filter (fun d => !pfxL p d),
    tables := fs.tables.filter (fun e => !pfxL p e.1) }

/-- All paths that exist in the file system (candidates for glob matching). -/
def allEntryPaths (fs : FS) : List FPath :=
  fs.files.map Prod.fst ++ fs.dirs ++ fs.tables.map Prod.fst

/-- Does `p` lie under `root` and match the glob pattern there? -/
def globMatch (root : FPath) (pat : List String) (p : FPath) : Bool :=
  pfxL root p && sectionsMatch pat (p.drop root.length)

/-- Every existing entry under `root` that matches the pattern there. -/
def globList (fs : FS) (root : FPath) (pat : List String) : List FPath :=
  (allEntryPaths fs).filter (globMatch root pat)

/-- `Path(root).glob(pat)`, per CPython `pathlib` semantics: when `root` is not
an existing directory the selector yields an empty iterator (no error is
raised); otherwise every existing entry under `root` matching the pattern is
produced. -/
def glob (fs : FS) (root : FPath) (pat : List String) : List FPath :=
  if isDir fs root then globList fs root pat else []

/-- Modelled from the spec: the File Discovery contract of §4.1, which demands
`NotFoundError` when the root directory does not exist (the source's `Path.glob`
does not behave this way; this definition exists only to state that contrast). -/
def discoverSpec (fs : FS) (root : FPath) (pat : List String) :
    Except Err (List FPath) :=
  if isDir fs root then .ok ((allEntryPaths fs).filter (globMatch root pat))
  else .error (.NotFoundError root)

/-- Result of running (part of) the staging pipeline: the file system afterwards,
the events of the steps that completed, the first error if one occurred, and the
constructed application if the run got that far. -/
structure RunResult where
  fs : FS
  trace : List Event
  error : Option Err
  app : Option BigsliceAppObj
deriving DecidableEq

/-- The records loaded from the given files, with malformed records skipped:
for each path in order, the well-formed records of the file at that path,
each tagged with its source path. -/
def loadRows (fs : FS) : List FPath → List (FPath × GRec)
  | [] => []
  | p :: ps =>
    (match findA fs.files p with
     | some fd => (fd.recs.filter (fun r => r.ok)).map (fun r => (p, r))
     | none => []) ++ loadRows fs ps

/-- Modelled from the spec: the external record loader's per-file behaviour
(§2 Record Loader, §7 taxonomy).  Each listed file must exist
(`NotFoundError` otherwise); with `skipMalformed = true` malformed records are
dropped, with `skipMalformed = false` any malformed record aborts the load. -/
def loadFiles (fs : FS) : List FPath → Bool → Except Err (List (FPath × GRec))
  | [], _ => .ok []
  | p :: ps, skipMalformed =>
    match findA fs.files p with
    | none => .error (.NotFoundError p)
    | some fd =>
      if skipMalformed then
        match loadFiles fs ps skipMalformed with
        | .error e => .error e
        | .ok rest => .ok ((fd.recs.filter (fun r => r.ok)).map (fun r => (p, r)) ++ rest)
      else
        if fd.recs.all (fun r => r.ok) then
          match loadFiles fs ps skipMalformed with
          | .error e => .error e
          | .ok rest => .ok (fd.recs.map (fun r => (p, r)) ++ rest)
        else .error (.ExternalCollaboratorError "malformed record")

/-- Modelled from the spec: `gbkIO.loadSmallFiles2` (external collaborator).
Reads the manifest file (one path per line; `NotFoundError` when it is missing),
then loads the records of every listed file.  `dfType` and `minParts` are
configuration passed through to the external engine and do not affect which
records are produced. -/
def loadSmallFiles2 (fs : FS) (manifest : FPath) (_dfType : String)
    (_minParts : Nat) (skipMalformed : Bool) : Except Err (List (FPath × GRec)) :=
  match findA fs.files manifest with
  | none => .error (.NotFoundError manifest)
  | some fd => loadFiles fs (manifestPaths fd.chars) skipMalformed

/-- Modelled from the spec: the Table Writer contract (§4.3).  Fails with
`WriteError` when the destination is unwritable, or when it already holds an
artifact and `overwrite` is false; otherwise the artifact at the destination is
fully replaced by the new rows. -/
def writeTable (fs : FS) (dest : FPath) (rows : List (FPath × GRec))
    (overwrite : Bool) (parts : Nat) : Except Err FS :=
  if !writable fs dest then .error (.WriteError dest)
  else if !overwrite && (findA fs.tables dest).isSome then .error (.WriteError dest)
  else .ok { fs with tables := setA fs.tables dest ⟨rows, parts⟩ }

/-- Modelled from the spec: `RawFeatDF.read` (external collaborator) reads the
table artifact back; `NotFoundError` when no artifact exists at the path. -/
def rawFeatRead (fs : FS) (p : FPath) : Except Err TableData :=
  match findA fs.tables p with
  | none => .error (.NotFoundError p)
  | some t => .ok t

/-- Modelled from the spec: `BigsliceApp.create` (external Application Builder).
Fails when anything already exists at the workspace path (the notebook deletes
the directory first precisely to avoid this error); otherwise it creates the
workspace directory and returns the application object. -/
def bigsliceCreate (fs : FS) (dir : FPath) (df : TableData) (sourceType : String) :
    Except Err (FS × BigsliceAppObj) :=
  if entryExists fs dir then .error (.ExternalCollaboratorError "workspace exists")
  else .ok ({ fs with dirs := dir :: fs.dirs }, ⟨df, sourceType⟩)

/-- The dataset root directory hard-coded in the manifest cell:
`"/home/matinnu/datadrive/vol_atlas_server/datasets/"`. -/
def dataset_path : FPath := ["home", "matinnu", "datadrive", "vol_atlas_server", "datasets"]

/-- The glob pattern hard-coded in the manifest cell: `"*/antismash/*region*.gbk"`. -/
def datasetGlobPattern : List String := ["*", "antismash", "*region*.gbk"]

/-- The manifest cell (notebook cell `fa8c0646`): glob the hard-coded dataset
directory with the hard-coded pattern, create the manifest's parent directories,
and write the matched paths one per line (truncating any existing manifest). -/
def manifestCell (fs : FS) (genbank_table : FPath) : RunResult :=
  match writeFile (mkdirParents fs (parentOf genbank_table)) genbank_table
      (manifestContent (glob fs dataset_path datasetGlobPattern)) with
  | .error e => ⟨mkdirParents fs (parentOf genbank_table),
      [Event.discover dataset_path datasetGlobPattern], some e, none⟩
  | .ok fs2 => ⟨fs2,
      [Event.discover dataset_path datasetGlobPattern,
       Event.writeManifest genbank_table], none, none⟩

/-- The notebook's workspace reset: `if bigslice_app_dir.exists(): shutil.rmtree(...)`. -/
def clearWS (fs : FS) (ws : FPath) : FS :=
  if entryExists fs ws then rmtree fs ws else fs

/-- `gbk_to_bigslice_app` from the notebook: load annotation records from the
files listed in the manifest (`df_type="annotation"`, `minPartitions=5`,
`skip_malformed_record=True`), write them as a table with `overwrite=True,
num_partitions=5`, delete the workspace directory if it exists, read the table
back, and construct the application with `source_type="antismash"`.  Any step's
exception propagates, leaving earlier effects in place. -/
def gbk_to_bigslice_app (fs : FS)
    (genbank_table_path bigslice_app_dir_path annotations_path : FPath) : RunResult :=
  match loadSmallFiles2 fs genbank_table_path "annotation" 5 true with
  | .error e => ⟨fs, [], some e, none⟩
  | .ok records =>
    match writeTable fs annotations_path records true 5 with
    | .error e => ⟨fs, [Event.loadRecords genbank_table_path true 5], some e, none⟩
    | .ok fs1 =>
      match rawFeatRead (clearWS fs1 bigslice_app_dir_path) annotations_path with
      | .error e => ⟨clearWS fs1 bigslice_app_dir_path,
          [Event.loadRecords genbank_table_path true 5,
           Event.writeTable annotations_path true 5,
           Event.clearWorkspace bigslice_app_dir_path], some e, none⟩
      | .ok df =>
        match bigsliceCreate (clearWS fs1 bigslice_app_dir_path)
            bigslice_app_dir_path df "antismash" with
        | .error e => ⟨clearWS fs1 bigslice_app_dir_path,
            [Event.loadRecords genbank_table_path true 5,
             Event.writeTable annotations_path true 5,
             Event.clearWorkspace bigslice_app_dir_path], some e, none⟩
        | .ok (fs3, app) =>
          ⟨fs3,
            [Event.loadRecords genbank_table_path true 5,
             Event.writeTable annotations_path true 5,
             Event.clearWorkspace bigslice_app_dir_path,
             Event.createApp bigslice_app_dir_path "antismash"], none, some app⟩

/-- The full staging sequence as the notebook runs it: the manifest cell, then
`gbk_to_bigslice_app(genbank_table, bigslice_app_dir, annotations_dir)`.  A
failure in the manifest cell means the later cell's work never starts. -/
def stagingRun (fs : FS) (genbank_table bigslice_app_dir annotations_dir : FPath) :
    RunResult :=
  match manifestCell fs genbank_table with
  | ⟨fs1, t1, some e, app⟩ => ⟨fs1, t1, some e, app⟩
  | ⟨fs1, t1, none, _⟩ =>
    match gbk_to_bigslice_app fs1 genbank_table bigslice_app_dir annotations_dir with
    | ⟨fs2, t2, err, app⟩ => ⟨fs2, t1 ++ t2, err, app⟩

/-- The file system after a successful manifest cell: parent directories of the
manifest created, manifest written. -/
def manifestFS (fs : FS) (genbank_table : FPath) : FS :=
  { mkdirParents fs (parentOf genbank_table) with
      files := setA (mkdirParents fs (parentOf genbank_table)).files genbank_table
        ⟨manifestContent (glob fs dataset_path datasetGlobPattern), []⟩ }

/-- The file system after the table write: the artifact at `p3ann` replaced by
`rows` in 5 partitions. -/
def tableFS (fs : FS) (p3ann : FPath) (rows : List (FPath × GRec)) : FS :=
  { fs with tables := setA fs.tables p3ann ⟨rows, 5⟩ }

/-- The file system after a successful `gbk_to_bigslice_app` on `fs`, writing
`rows` to the table at `p3ann` and creating the workspace at `p2dir`. -/
def gbkFS (fs : FS) (p2dir p3ann : FPath) (rows : List (FPath × GRec)) : FS :=
  { clearWS (tableFS fs p3ann rows) p2dir with
      dirs := p2dir :: (clearWS (tableFS fs p3ann rows) p2dir).dirs }

/-- The file system after a complete successful staging run. -/
def stageFS (fs : FS) (p1 p2 p3 : FPath) : FS :=
  gbkFS (manifestFS fs p1) p2 p3
    (loadRows fs (glob fs dataset_path datasetGlobPattern))

/-- The event sequence of a complete, successful staging run. -/
def fullTrace (genbank_table bigslice_app_dir annotations_dir : FPath) : List Event :=
  [Event.discover dataset_path datasetGlobPattern,
   Event.writeManifest genbank_table,
   Event.loadRecords genbank_table true 5,
   Event.writeTable annotations_dir true 5,
   Event.clearWorkspace bigslice_app_dir,
   Event.createApp bigslice_app_dir "antismash"]

/-- A distributed-computing session with the configuration the notebook sets. -/
structure Session where
  master : String
  appName : String
  cores : Nat
  memory : String
  shufflePartitions : Nat
  eventLogDir : FPath
deriving DecidableEq

/-- Process-wide Spark state: at most one active session (Spark's singleton
context invariant). -/
structure SparkState where
  active : Option Session
deriving DecidableEq

/-- Number of active sessions in the process. -/
def activeCount (st : SparkState) : Nat :=
  match st.active with
  | some _ => 1
  | none => 0

/-- `SparkContext.getOrCreate().stop()`: whether a context already existed or
one was just created, afterwards none is active. -/
def stopContext (_st : SparkState) : SparkState := ⟨none⟩

/-- `SparkSession.builder...getOrCreate()`: return the active session if one
exists, otherwise create the newly configured one. -/
def builderGetOrCreate (st : SparkState) (s : Session) : SparkState × Session :=
  match st.active with
  | some existing => (st, existing)
  | none => (⟨some s⟩, s)

/-- Result of `start_new_spark_session`. -/
structure SparkResult where
  state : SparkState
  fs : FS
  trace : List Event
  session : Session
deriving DecidableEq

/-- `start_new_spark_session` from the notebook: force-stop any pre-existing
context, create the event-log directory, then build and return the configured
session. -/
def start_new_spark_session (st : SparkState) (fs : FS) (master_ip app_name : String)
    (log_dir : FPath) (cores : Nat) (memory : String) (partitions : Nat) :
    SparkResult :=
  let st1 := stopContext st
  let fs1 := mkdirParents fs log_dir
  let sess : Session := ⟨master_ip, app_name, cores, memory, partitions, log_dir⟩
  let (st2, s) := builderGetOrCreate st1 sess
  ⟨st2, fs1, [Event.stopSession,
     Event.buildSession master_ip app_name cores memory partitions log_dir], s⟩

/-! ### Concrete states used to instantiate the theorems -/

/-- A sample GenBank file body: one well-formed and one malformed record. -/
def gbkSample : FileData :=
  ⟨[], [⟨"BGC0001", true⟩, ⟨"broken", false⟩]⟩

/-- A sample antiSMASH region file inside the dataset directory. -/
def regionFile : FPath :=
  ["home", "matinnu", "datadrive", "vol_atlas_server", "datasets",
   "s1", "antismash", "r1.region001.gbk"]

/-- Sample manifest destination. -/
def wp1 : FPath := ["data", "datasets.txt"]

/-- Sample application workspace. -/
def wp2 : FPath := ["data", "interim", "bigslice_app"]

/-- Sample annotations table destination. -/
def wp3 : FPath := ["data", "interim", "annotations"]

/-- A dataset directory with one matching region file; nothing read-only. -/
def fsW : FS := ⟨[(regionFile, gbkSample)], [dataset_path], [], []⟩

/-- A dataset directory that exists but contains no files. -/
def fsOnlyRoot : FS := ⟨[], [dataset_path], [], []⟩

/-- A completely empty file system (no dataset directory). -/
def fsEmpty : FS := ⟨[], [], [], []⟩

/-- Sample table rows for the double-write experiment. -/
def rowsA : List (FPath × GRec) := [(regionFile, ⟨"BGC0001", true⟩)]

/-- A second, different row set for the double-write experiment. -/
def rowsB : List (FPath × GRec) := [(regionFile, ⟨"BGC0002", true⟩)]

/-- State after writing `rowsA` to `wp3` on an empty file system. -/
def fsC1a : FS := ⟨[], [], [(wp3, ⟨rowsA, 3⟩)], []⟩

/-- State after then overwriting with `rowsB`. -/
def fsC1b : FS := ⟨[], [], [(wp3, ⟨rowsB, 5⟩)], []⟩

/-! ### Basic lemmas about prefixes, membership and association lists -/

theorem isPrefixL_refl {α : Type} [DecidableEq α] : ∀ l : List α, isPrefixL l l = true
  | [] => rfl
  | a :: as => by simp [isPrefixL, isPrefixL_refl as]

theorem isPrefixL_trans {α : Type} [DecidableEq α] :
    ∀ (a b c : List α), isPrefixL a b = true → isPrefixL b c = true →
      isPrefixL a c = true
  | [], _, _, _, _ => rfl
  | _ :: _, [], _, h, _ => by simp [isPrefixL] at h
  | _ :: _, _ :: _, [], _, h => by simp [isPrefixL] at h
  | a :: as, b :: bs, c :: cs, h1, h2 => by
    by_cases hab : a = b
    · subst hab
      by_cases hac : a = c
      · subst hac
        simp only [isPrefixL, if_pos rfl] at h1 h2 ⊢
        exact isPrefixL_trans as bs cs h1 h2
      · simp [isPrefixL, hac] at h2
    · simp [isPrefixL, hab] at h1

theorem isPrefixL_total {α : Type} [DecidableEq α] :
    ∀ (a b c : List α), isPrefixL a c = true → isPrefixL b c = true →
      isPrefixL a b = true ∨ isPrefixL b a = true
  | [], _, _, _, _ => Or.inl rfl
  | _ :: _, [], _, _, _ => Or.inr rfl
  | _ :: _, _ :: _, [], h1, _ => by simp [isPrefixL] at h1
  | a :: as, b :: bs, c :: cs, h1, h2 => by
    by_cases hac : a = c
    · by_cases hbc : b = c
      · subst hac; subst hbc
        simp only [isPrefixL, if_pos rfl] at h1 h2 ⊢
        exact isPrefixL_total as bs cs h1 h2
      · simp [isPrefixL, hbc] at h2
    · simp [isPrefixL, hac] at h1

theorem pfxL_refl (p : FPath) : pfxL p p = true := isPrefixL_refl p

theorem pfxL_trans {a b c : FPath} (h1 : pfxL a b = true) (h2 : pfxL b c = true) :
    pfxL a c = true := isPrefixL_trans a b c h1 h2

theorem pfxL_total {a b c : FPath} (h1 : pfxL a c = true) (h2 : pfxL b c = true) :
    pfxL a b = true ∨ pfxL b a = true := isPrefixL_total a b c h1 h2

theorem ne_of_pfxL_false {a b : FPath} (h : pfxL a b = false) : a ≠ b := by
  intro hab; subst hab; rw [pfxL_refl] at h; exact Bool.true_eq_false.mp h

theorem elemP_iff_mem (p : FPath) : ∀ l : List FPath, elemP p l = true ↔ p ∈ l
  | [] => by simp [elemP]
  | q :: qs => by
    by_cases h : q = p
    · subst h; simp [elemP]
    · simp [elemP, h, elemP_iff_mem p qs, Ne.symm h]

theorem elemP_append (p : FPath) (l1 l2 : List FPath) :
    elemP p (l1 ++ l2) = (elemP p l1 || elemP p l2) := by
  induction l1 with
  | nil => simp [elemP]
  | cons q qs ih => by_cases h : q = p <;> simp [elemP, h, ih]

theorem elemP_filter (keep : FPath → Bool) (p : FPath)
    (h : keep p = true) : ∀ l : List FPath, elemP p (l.filter keep) = elemP p l := by
  intro l
  induction l with
  | nil => simp [elemP]
  | cons q qs ih =>
    by_cases hq : q = p
    · subst hq; simp [List.filter_cons, h, elemP, ih]
    · by_cases hk : keep q = true <;> simp [List.filter_cons, hk, elemP, hq, ih]

theorem elemP_filter_out (keep : FPath → Bool) (p : FPath)
    (h : keep p = false) : ∀ l : List FPath, elemP p (l.filter keep) = false := by
  intro l
  induction l with
  | nil => simp [elemP]
  | cons q qs ih =>
    by_cases hq : q = p
    · subst hq; simp [List.filter_cons, h, ih]
    · by_cases hk : keep q = true <;> simp [List.filter_cons, hk, elemP, hq, ih]

theorem elemP_false_of_not_mem {p : FPath} {l : List FPath} (h : p ∉ l) :
    elemP p l = false := by
  cases he : elemP p l
  · rfl
  · exact absurd ((elemP_iff_mem p l).mp he) h

theorem findA_eraseA_ne {β : Type} (p q : FPath) (h : q ≠ p) :
    ∀ l : List (FPath × β), findA (eraseA l p) q = findA l q
  | [] => rfl
  | e :: es => by
    by_cases h1 : e.1 = p
    · have h2 : e.1 ≠ q := by rw [h1]; exact Ne.symm h
      simp [eraseA, findA, h1, h2, Ne.symm h, findA_eraseA_ne p q h es]
    · by_cases h2 : e.1 = q <;>
        simp [eraseA, findA, h1, h2, h, findA_eraseA_ne p q h es]

theorem findA_set_eq {β : Type} (l : List (FPath × β)) (p : FPath) (b : β) :
    findA (setA l p b) p = some b := by simp [setA, findA]

theorem findA_set_ne {β : Type} (l : List (FPath × β)) (p : FPath) (b : β)
    (q : FPath) (h : q ≠ p) : findA (setA l p b) q = findA l q := by
  simp only [setA, findA, if_neg (Ne.symm h)]
  exact findA_eraseA_ne p q h l

theorem countKey_eraseA {β : Type} (p : FPath) :
    ∀ l : List (FPath × β), countKey (eraseA l p) p = 0
  | [] => rfl
  | e :: es => by
    by_cases h : e.1 = p <;> simp [eraseA, countKey, h, countKey_eraseA p es]

theorem countKey_setA {β : Type} (l : List (FPath × β)) (p : FPath) (b : β) :
    countKey (setA l p b) p = 1 := by
  simp [setA, countKey, countKey_eraseA p l]

theorem findA_filter {β : Type} (keep : FPath → Bool) (q : FPath)
    (h : keep q = true) : ∀ l : List (FPath × β),
      findA (l.filter (fun e => keep e.1)) q = findA l q
  | [] => rfl
  | e :: es => by
    by_cases h1 : e.1 = q
    · have hk : keep e.1 = true := by rw [h1]; exact h
      simp [List.filter_cons, hk, h, findA, h1]
    · by_cases h2 : keep e.1 = true <;>
        simp [List.filter_cons, h2, findA, h1, findA_filter keep q h es]

theorem findA_filter_out {β : Type} (keep : FPath → Bool) (q : FPath)
    (h : keep q = false) : ∀ l : List (FPath × β),
      findA (l.filter (fun e => keep e.1)) q = none
  | [] => rfl
  | e :: es => by
    by_cases h1 : e.1 = q
    · have : keep e.1 = false := by rw [h1]; exact h
      simp [List.filter_cons, this, findA_filter_out keep q h es]
    · by_cases h2 : keep e.1 = true <;>
        simp [List.filter_cons, h2, findA, h1, findA_filter_out keep q h es]

/-! ### Lemmas about manifest text round-trips -/

theorem strMkData : ∀ s : String, String.mk s.data = s
  | ⟨_⟩ => rfl

theorem hasC_append (a : Char) (l1 l2 : List Char) :
    hasC a (l1 ++ l2) = (hasC a l1 || hasC a l2) := by
  induction l1 with
  | nil => simp [hasC]
  | cons c cs ih => by_cases h : c = a <;> simp [hasC, h, ih]

theorem splitOnC_ne_nil (sep : Char) : ∀ l : List Char, splitOnC sep l ≠ []
  | [] => by simp [splitOnC]
  | c :: cs => by
    simp only [splitOnC]
    cases h : splitOnC sep cs with
    | nil => simp
    | cons a as => by_cases hc : c = sep <;> simp [hc]

theorem splitOnC_append (sep : Char) :
    ∀ xs rest : List Char, hasC sep xs = false →
      splitOnC sep (xs ++ sep :: rest) = xs :: splitOnC sep rest
  | [], rest, _ => by
    simp only [List.nil_append, splitOnC]
    cases h : splitOnC sep rest with
    | nil => exact absurd h (splitOnC_ne_nil sep rest)
    | cons a as => simp
  | x :: xs, rest, h => by
    have hx : x ≠ sep := by
      intro hxe; rw [hasC, if_pos hxe] at h; exact Bool.true_eq_false.mp h
    have hxs : hasC sep xs = false := by rwa [hasC, if_neg hx] at h
    have ih := splitOnC_append sep xs rest hxs
    simp only [List.cons_append, splitOnC, List.append_eq]
    rw [ih]
    simp [hx]

theorem splitOnC_no_sep (sep : Char) :
    ∀ xs : List Char, hasC sep xs = false → splitOnC sep xs = [xs]
  | [], _ => rfl
  | x :: xs, h => by
    have hx : x ≠ sep := by
      intro hxe; rw [hasC, if_pos hxe] at h; exact Bool.true_eq_false.mp h
    have hxs : hasC sep xs = false := by rwa [hasC, if_neg hx] at h
    simp [splitOnC, splitOnC_no_sep sep xs hxs, hx]

theorem validPath_cons {s : String} {rest : FPath} (h : validPath (s :: rest) = true) :
    validSeg s = true ∧ (rest = [] ∨ validPath rest = true) := by
  simp only [validPath, List.isEmpty_cons, Bool.not_false, Bool.true_and, List.all_cons,
    Bool.and_eq_true] at h
  refine ⟨h.1, ?_⟩
  cases rest with
  | nil => exact Or.inl rfl
  | cons t r =>
    refine Or.inr ?_
    simp only [validPath, List.isEmpty_cons, Bool.not_false, Bool.true_and]
    exact h.2

theorem validSeg_parts {s : String} (h : validSeg s = true) :
    s.data ≠ [] ∧ hasC '/' s.data = false ∧ hasC '\n' s.data = false := by
  simp only [validSeg, Bool.and_eq_true, Bool.not_eq_true'] at h
  exact ⟨by simpa [List.isEmpty_iff] using h.1.1, h.1.2, h.2⟩

theorem pathChars_no_nl : ∀ p : FPath, validPath p = true → hasC '\n' (pathChars p) = false
  | [], h => by simp [validPath] at h
  | [s], h => (validSeg_parts (validPath_cons h).1).2.2
  | s :: t :: r, h => by
    obtain ⟨hs, hrest⟩ := validPath_cons h
    have hr : validPath (t :: r) = true := by
      cases hrest with
      | inl h0 => exact absurd h0 (by simp)
      | inr h0 => exact h0
    have := (validSeg_parts hs).2.2
    simp [pathChars, hasC_append, this, hasC, pathChars_no_nl (t :: r) hr]

theorem pathChars_no_slash_single {s : String} (h : validSeg s = true) :
    hasC '/' (pathChars [s]) = false := (validSeg_parts h).2.1

theorem pathChars_ne_nil : ∀ p : FPath, validPath p = true → pathChars p ≠ []
  | [], h => by simp [validPath] at h
  | [s], h => by
    have := (validSeg_parts (validPath_cons h).1).1
    simpa [pathChars] using this
  | s :: t :: r, h => by
    have := (validSeg_parts (validPath_cons h).1).1
    simp only [pathChars]
    intro hc
    exact this (List.append_eq_nil.mp hc).1

theorem parse_pathChars : ∀ p : FPath, validPath p = true → parsePathChars (pathChars p) = p
  | [], h => by simp [validPath] at h
  | [s], h => by
    have hs := (validSeg_parts (validPath_cons h).1).2.1
    simp [parsePathChars, pathChars, splitOnC_no_sep '/' s.data hs, strMkData]
  | s :: t :: r, h => by
    obtain ⟨hs, hrest⟩ := validPath_cons h
    have hr : validPath (t :: r) = true := by
      cases hrest with
      | inl h0 => exact absurd h0 (by simp)
      | inr h0 => exact h0
    have hsl := (validSeg_parts hs).2.1
    have ih := parse_pathChars (t :: r) hr
    simp only [parsePathChars] at ih ⊢
    simp [pathChars, splitOnC_append '/' s.data (pathChars (t :: r)) hsl, strMkData, ih]

theorem manifestPaths_content :
    ∀ ds : List FPath, ds.all validPath = true →
      manifestPaths (manifestContent ds) = ds
  | [], _ => rfl
  | d :: ds, h => by
    have hd : validPath d = true := by
      simp only [List.all_cons, Bool.and_eq_true] at h; exact h.1
    have hds : ds.all validPath = true := by
      simp only [List.all_cons, Bool.and_eq_true] at h; exact h.2
    have hnl := pathChars_no_nl d hd
    have hne : (pathChars d).isEmpty = false := by
      cases hc : pathChars d with
      | nil => exact absurd hc (pathChars_ne_nil d hd)
      | cons a as => simp
    have ih := manifestPaths_content ds hds
    simp only [manifestPaths] at ih ⊢
    simp [manifestContent, splitOnC_append '\n' (pathChars d) (manifestContent ds) hnl,
      List.filter_cons, hne, parse_pathChars d hd, ih]

/-! ### Lemmas about discovery and path prefixes -/

theorem take_isPrefixL {α : Type} [DecidableEq α] :
    ∀ (n : Nat) (l : List α), isPrefixL (l.take n) l = true
  | 0, _ => rfl
  | _ + 1, [] => rfl
  | n + 1, a :: as => by simp [List.take, isPrefixL, take_isPrefixL n as]

theorem pfxL_of_mem_prefixesOf {q p : FPath} (h : q ∈ prefixesOf p) :
    pfxL q p = true := by
  simp only [prefixesOf, List.mem_map, List.mem_range] at h
  obtain ⟨n, _, rfl⟩ := h
  exact take_isPrefixL n p

theorem dropLast_pfxL : ∀ p : FPath, pfxL p.dropLast p = true
  | [] => rfl
  | [_] => rfl
  | a :: b :: r => by
    simp only [List.dropLast, pfxL, isPrefixL, if_pos rfl]
    exact dropLast_pfxL (b :: r)

theorem glob_mem_under {fs : FS} {root : FPath} {pat : List String} {p : FPath}
    (h : p ∈ glob fs root pat) : pfxL root p = true := by
  simp only [glob] at h
  by_cases hd : isDir fs root = true
  · rw [if_pos hd] at h
    simp only [globList, List.mem_filter, globMatch, Bool.and_eq_true] at h
    exact h.2.1
  · rw [if_neg hd] at h
    exact absurd h (List.not_mem_nil p)

theorem glob_mem_entries {fs : FS} {root : FPath} {pat : List String} {p : FPath}
    (h : p ∈ glob fs root pat) : p ∈ allEntryPaths fs := by
  simp only [glob] at h
  by_cases hd : isDir fs root = true
  · rw [if_pos hd] at h
    exact (List.mem_filter.mp h).1
  · rw [if_neg hd] at h
    exact absurd h (List.not_mem_nil p)

theorem glob_empty_of_no_root (fs : FS) (root : FPath) (pat : List String)
    (h : isDir fs root = false) : glob fs root pat = [] := by
  simp [glob, h]

/-! ### Filter-based frame lemmas for the glob candidate list -/

theorem filter_append_none (gm : FPath → Bool) (l extra : List FPath)
    (h : ∀ x ∈ extra, gm x = false) :
    (l ++ extra).filter gm = l.filter gm := by
  rw [List.filter_append]
  have : extra.filter gm = [] := by
    induction extra with
    | nil => rfl
    | cons x xs ih =>
      rw [List.filter_cons, if_neg (by simp [h x (List.mem_cons_self x xs)])]
      exact ih (fun y hy => h y (List.mem_cons_of_mem x hy))
  rw [this, List.append_nil]

theorem filter_filter_of_imp (gm keep : FPath → Bool) (l : List FPath)
    (h : ∀ q, gm q = true → keep q = true) :
    (l.filter keep).filter gm = l.filter gm := by
  induction l with
  | nil => rfl
  | cons q t ih =>
    by_cases hk : keep q = true
    · by_cases hg : gm q = true <;>
        simp [List.filter_cons, hk, hg, ih]
    · have hg : gm q = false := by
        cases hgq : gm q
        · rfl
        · exact absurd (h q hgq) hk
      simp [List.filter_cons, hk, hg, ih]

theorem filter_map_fst_eraseA {β : Type} (gm : FPath → Bool) (p : FPath)
    (h : gm p = false) : ∀ l : List (FPath × β),
      ((eraseA l p).map Prod.fst).filter gm = (l.map Prod.fst).filter gm
  | [] => rfl
  | e :: es => by
    by_cases h1 : e.1 = p
    · have hg : gm e.1 = false := by rw [h1]; exact h
      simp [eraseA, h1, List.filter_cons, hg, h, filter_map_fst_eraseA gm p h es]
    · by_cases hg : gm e.1 = true <;>
        simp [eraseA, h1, List.filter_cons, hg, h, filter_map_fst_eraseA gm p h es]

theorem filter_map_fst_setA {β : Type} (gm : FPath → Bool) (l : List (FPath × β))
    (p : FPath) (b : β) (h : gm p = false) :
    ((setA l p b).map Prod.fst).filter gm = (l.map Prod.fst).filter gm := by
  simp [setA, List.filter_cons, h, filter_map_fst_eraseA gm p h l]

theorem filter_map_fst_filter {β : Type} (gm keep : FPath → Bool)
    (h : ∀ q, gm q = true → keep q = true) : ∀ l : List (FPath × β),
      (((l.filter (fun e => keep e.1)).map Prod.fst).filter gm) =
        ((l.map Prod.fst).filter gm)
  | [] => rfl
  | e :: es => by
    by_cases hk : keep e.1 = true
    · by_cases hg : gm e.1 = true <;>
        simp [List.filter_cons, hk, hg, filter_map_fst_filter gm keep h es]
    · have hg : gm e.1 = false := by
        cases hgq : gm e.1
        · rfl
        · exact absurd (h e.1 hgq) hk
      simp [List.filter_cons, hk, hg, filter_map_fst_filter gm keep h es]

/-! ### Characterization of the pipeline steps -/

theorem globMatch_under {root : FPath} {pat : List String} {q : FPath}
    (h : globMatch root pat q = true) : pfxL root q = true := by
  simp only [globMatch, Bool.and_eq_true] at h
  exact h.1

theorem writable_manifestFS (fs : FS) (p1 q : FPath) :
    writable (manifestFS fs p1) q = writable fs q := rfl

theorem roPaths_clearWS (fs : FS) (p : FPath) :
    (clearWS fs p).roPaths = fs.roPaths := by
  unfold clearWS; split <;> rfl

theorem roPaths_gbkFS (fs : FS) (p2 p3 : FPath) (rows : List (FPath × GRec)) :
    (gbkFS fs p2 p3 rows).roPaths = fs.roPaths := by
  simp only [gbkFS]
  rw [roPaths_clearWS]
  rfl

theorem roPaths_stageFS (fs : FS) (p1 p2 p3 : FPath) :
    (stageFS fs p1 p2 p3).roPaths = fs.roPaths := by
  simp only [stageFS]
  rw [roPaths_gbkFS]
  rfl

theorem writable_stageFS (fs : FS) (p1 p2 p3 q : FPath) :
    writable (stageFS fs p1 p2 p3) q = writable fs q := by
  simp only [writable, roPaths_stageFS]

theorem entryExists_clearWS (fs : FS) (p : FPath) :
    entryExists (clearWS fs p) p = false := by
  unfold clearWS
  split
  · simp only [entryExists, rmtree]
    rw [findA_filter_out (fun x => !pfxL p x) p (by simp [pfxL_refl]),
        findA_filter_out (fun x => !pfxL p x) p (by simp [pfxL_refl]),
        elemP_filter_out (fun x => !pfxL p x) p (by simp [pfxL_refl])]
    rfl
  · rename_i h
    simp only [Bool.not_eq_true] at h
    exact h

theorem findA_tables_clearWS (fs : FS) (p2 q : FPath) (h : pfxL p2 q = false) :
    findA (clearWS fs p2).tables q = findA fs.tables q := by
  unfold clearWS; split
  · exact findA_filter (fun x => !pfxL p2 x) q (by simp [h]) fs.tables
  · rfl

theorem findA_files_clearWS (fs : FS) (p2 q : FPath) (h : pfxL p2 q = false) :
    findA (clearWS fs p2).files q = findA fs.files q := by
  unfold clearWS; split
  · exact findA_filter (fun x => !pfxL p2 x) q (by simp [h]) fs.files
  · rfl

theorem elemP_dirs_clearWS (fs : FS) (p2 q : FPath) (h : pfxL p2 q = false) :
    elemP q (clearWS fs p2).dirs = elemP q fs.dirs := by
  unfold clearWS; split
  · exact elemP_filter (fun x => !pfxL p2 x) q (by simp [h]) fs.dirs
  · rfl

theorem findA_isSome_of_mem_map_fst {β : Type} {p : FPath} :
    ∀ {l : List (FPath × β)}, p ∈ l.map Prod.fst → (findA l p).isSome = true := by
  intro l
  induction l with
  | nil => intro h; exact absurd h (List.not_mem_nil p)
  | cons e es ih =>
    intro h
    by_cases h1 : e.1 = p
    · simp [findA, h1]
    · simp only [List.map_cons, List.mem_cons] at h
      cases h with
      | inl h0 => exact absurd h0.symm h1
      | inr h0 => simp only [findA, if_neg h1]; exact ih h0

theorem entryExists_of_mem (fs : FS) (p : FPath) (h : p ∈ allEntryPaths fs) :
    entryExists fs p = true := by
  simp only [allEntryPaths, List.append_assoc, List.mem_append] at h
  simp only [entryExists, Bool.or_eq_true]
  rcases h with h | h | h
  · exact Or.inl (Or.inl (findA_isSome_of_mem_map_fst h))
  · exact Or.inl (Or.inr ((elemP_iff_mem p fs.dirs).mpr h))
  · exact Or.inr (findA_isSome_of_mem_map_fst h)

theorem entryExists_manifestFS (fs : FS) (p1 p : FPath)
    (h : entryExists fs p = true) : entryExists (manifestFS fs p1) p = true := by
  simp only [entryExists, Bool.or_eq_true] at h ⊢
  rcases h with (h | h) | h
  · by_cases h1 : p = p1
    · subst h1
      refine Or.inl (Or.inl ?_)
      show (findA (setA (mkdirParents fs (parentOf p)).files p ⟨_, _⟩) p).isSome = true
      rw [findA_set_eq]
      rfl
    · refine Or.inl (Or.inl ?_)
      show (findA (setA (mkdirParents fs (parentOf p1)).files p1 ⟨_, _⟩) p).isSome = true
      rw [findA_set_ne _ _ _ _ h1]
      exact h
  · refine Or.inl (Or.inr ?_)
    show elemP p (fs.dirs ++ _) = true
    rw [elemP_append]
    simp [h]
  · exact Or.inr h

theorem manifestCell_ok (fs : FS) (p1 : FPath) (hw1 : writable fs p1 = true) :
    manifestCell fs p1 =
      ⟨manifestFS fs p1,
        [Event.discover dataset_path datasetGlobPattern, Event.writeManifest p1],
        none, none⟩ := by
  have hw : writable (mkdirParents fs (parentOf p1)) p1 = true := hw1
  simp only [manifestCell, writeFile, hw, if_true]
  rfl

theorem manifestCell_fail (fs : FS) (p1 : FPath) (hw1 : writable fs p1 = false) :
    manifestCell fs p1 =
      ⟨mkdirParents fs (parentOf p1),
        [Event.discover dataset_path datasetGlobPattern],
        some (Err.IOError p1), none⟩ := by
  have hw : writable (mkdirParents fs (parentOf p1)) p1 = false := hw1
  simp only [manifestCell, writeFile, hw]
  rfl

theorem loadFiles_ok (fsL fs0 : FS) :
    ∀ ds : List FPath,
      (∀ p ∈ ds, findA fsL.files p = findA fs0.files p) →
      (∀ p ∈ ds, (findA fs0.files p).isSome = true) →
      loadFiles fsL ds true = .ok (loadRows fs0 ds)
  | [], _, _ => rfl
  | p :: ps, hsub, hfound => by
    have h1 := hsub p (List.mem_cons_self p ps)
    have h2 := hfound p (List.mem_cons_self p ps)
    obtain ⟨fd, hfd⟩ := Option.isSome_iff_exists.mp h2
    rw [hfd] at h1
    have ih := loadFiles_ok fsL fs0 ps
      (fun q hq => hsub q (List.mem_cons_of_mem p hq))
      (fun q hq => hfound q (List.mem_cons_of_mem p hq))
    simp only [loadFiles, h1, if_true, ih, loadRows, hfd]

theorem loadRows_congr (f1 f2 : FS) :
    ∀ ds : List FPath, (∀ p ∈ ds, findA f1.files p = findA f2.files p) →
      loadRows f1 ds = loadRows f2 ds
  | [], _ => rfl
  | p :: ps, h => by
    have h1 := h p (List.mem_cons_self p ps)
    have ih := loadRows_congr f1 f2 ps (fun q hq => h q (List.mem_cons_of_mem p hq))
    simp only [loadRows, h1, ih]

theorem loadRows_all_ok (fs : FS) :
    ∀ ds : List FPath, ∀ pr ∈ loadRows fs ds, pr.2.ok = true
  | [], _, h => absurd h (List.not_mem_nil _)
  | p :: ps, pr, h => by
    simp only [loadRows, List.mem_append] at h
    cases h with
    | inl h1 =>
      cases hf : findA fs.files p with
      | none => rw [hf] at h1; exact absurd h1 (List.not_mem_nil _)
      | some fd =>
        rw [hf] at h1
        simp only [List.mem_map] at h1
        obtain ⟨r, hr, rfl⟩ := h1
        exact (List.mem_filter.mp hr).2
    | inr h2 => exact loadRows_all_ok fs ps pr h2

theorem gbk_ok (fs fs0 : FS) (p1 p2 p3 : FPath) (ds : List FPath)
    (hman : findA fs.files p1 = some ⟨manifestContent ds, []⟩)
    (hvds : ds.all validPath = true)
    (hsub : ∀ p ∈ ds, findA fs.files p = findA fs0.files p)
    (hfound : ∀ p ∈ ds, (findA fs0.files p).isSome = true)
    (hw3 : writable fs p3 = true)
    (h23 : pfxL p2 p3 = false) :
    gbk_to_bigslice_app fs p1 p2 p3 =
      ⟨gbkFS fs p2 p3 (loadRows fs0 ds),
        [Event.loadRecords p1 true 5, Event.writeTable p3 true 5,
         Event.clearWorkspace p2, Event.createApp p2 "antismash"],
        none, some ⟨⟨loadRows fs0 ds, 5⟩, "antismash"⟩⟩ := by
  have hload : loadSmallFiles2 fs p1 "annotation" 5 true = .ok (loadRows fs0 ds) := by
    simp only [loadSmallFiles2, hman]
    rw [manifestPaths_content ds hvds]
    exact loadFiles_ok fs fs0 ds hsub hfound
  have hwrite : writeTable fs p3 (loadRows fs0 ds) true 5 =
      .ok (tableFS fs p3 (loadRows fs0 ds)) := by
    simp [writeTable, hw3, tableFS]
  have hread : rawFeatRead
      (clearWS (tableFS fs p3 (loadRows fs0 ds)) p2) p3 =
      .ok ⟨loadRows fs0 ds, 5⟩ := by
    have ht : findA (clearWS (tableFS fs p3 (loadRows fs0 ds)) p2).tables p3
        = some ⟨loadRows fs0 ds, 5⟩ := by
      rw [findA_tables_clearWS _ _ _ h23]
      exact findA_set_eq _ _ _
    simp [rawFeatRead, ht]
  have hcreate : bigsliceCreate
      (clearWS (tableFS fs p3 (loadRows fs0 ds)) p2) p2
      ⟨loadRows fs0 ds, 5⟩ "antismash" =
      .ok (gbkFS fs p2 p3 (loadRows fs0 ds), ⟨⟨loadRows fs0 ds, 5⟩, "antismash"⟩) := by
    have he := entryExists_clearWS (tableFS fs p3 (loadRows fs0 ds)) p2
    simp [bigsliceCreate, he, gbkFS]
  simp only [gbk_to_bigslice_app, hload, hwrite, hread, hcreate]

theorem stagingRun_ok (fs : FS) (p1 p2 p3 : FPath)
    (hv : (glob fs dataset_path datasetGlobPattern).all validPath = true)
    (hfound : (glob fs dataset_path datasetGlobPattern).all
        (fun p => (findA fs.files p).isSome) = true)
    (hw1 : writable fs p1 = true) (hw3 : writable fs p3 = true)
    (h23 : pfxL p2 p3 = false) (hroot1 : pfxL dataset_path p1 = false) :
    stagingRun fs p1 p2 p3 =
      ⟨stageFS fs p1 p2 p3, fullTrace p1 p2 p3, none,
        some ⟨⟨loadRows fs (glob fs dataset_path datasetGlobPattern), 5⟩,
          "antismash"⟩⟩ := by
  have hcell := manifestCell_ok fs p1 hw1
  have hman : findA (manifestFS fs p1).files p1 =
      some ⟨manifestContent (glob fs dataset_path datasetGlobPattern), []⟩ := by
    show findA (setA (mkdirParents fs (parentOf p1)).files p1 _) p1 = _
    exact findA_set_eq _ _ _
  have hsub : ∀ p ∈ glob fs dataset_path datasetGlobPattern,
      findA (manifestFS fs p1).files p = findA fs.files p := by
    intro p hp
    have hup := glob_mem_under hp
    have hne : p ≠ p1 := by
      intro he; subst he; rw [hup] at hroot1; exact Bool.true_eq_false.mp hroot1
    show findA (setA (mkdirParents fs (parentOf p1)).files p1 _) p = _
    rw [findA_set_ne _ _ _ _ hne]
    rfl
  have hfound' : ∀ p ∈ glob fs dataset_path datasetGlobPattern,
      (findA fs.files p).isSome = true := by
    intro p hp
    have := List.all_eq_true.mp hfound p hp
    simpa using this
  have hw3' : writable (manifestFS fs p1) p3 = true := hw3
  have hgbk := gbk_ok (manifestFS fs p1) fs p1 p2 p3
    (glob fs dataset_path datasetGlobPattern) hman hv hsub hfound' hw3' h23
  simp only [stagingRun, hcell, hgbk]
  rfl

/-! ### Frame lemmas: a staging run does not disturb the dataset directory -/

theorem gm_keep (p2 : FPath) (hroot2 : pfxL dataset_path p2 = false)
    (h2root : pfxL p2 dataset_path = false) :
    ∀ q, globMatch dataset_path datasetGlobPattern q = true →
      (!pfxL p2 q) = true := by
  intro q hq
  have hrq := globMatch_under hq
  cases hp2q : pfxL p2 q
  · rfl
  · rcases pfxL_total hrq hp2q with h | h
    · simp [h] at hroot2
    · simp [h] at h2root

theorem gm_false_of_not_under (p : FPath) (h : pfxL dataset_path p = false) :
    globMatch dataset_path datasetGlobPattern p = false := by
  cases hg : globMatch dataset_path datasetGlobPattern p
  · rfl
  · have hu := globMatch_under hg
    simp [hu] at h

theorem filter_map_fst_files_clearWS (gm : FPath → Bool) (fs : FS) (p2 : FPath)
    (h : ∀ q, gm q = true → (!pfxL p2 q) = true) :
    ((clearWS fs p2).files.map Prod.fst).filter gm =
      (fs.files.map Prod.fst).filter gm := by
  unfold clearWS; split
  · exact filter_map_fst_filter gm _ h fs.files
  · rfl

theorem filter_map_fst_tables_clearWS (gm : FPath → Bool) (fs : FS) (p2 : FPath)
    (h : ∀ q, gm q = true → (!pfxL p2 q) = true) :
    ((clearWS fs p2).tables.map Prod.fst).filter gm =
      (fs.tables.map Prod.fst).filter gm := by
  unfold clearWS; split
  · exact filter_map_fst_filter gm _ h fs.tables
  · rfl

theorem filter_dirs_clearWS (gm : FPath → Bool) (fs : FS) (p2 : FPath)
    (h : ∀ q, gm q = true → (!pfxL p2 q) = true) :
    ((clearWS fs p2).dirs).filter gm = fs.dirs.filter gm := by
  unfold clearWS; split
  · exact filter_filter_of_imp gm _ fs.dirs h
  · rfl

theorem mkdir_extra_not_under (fs : FS) (p1 : FPath)
    (hroot1 : pfxL dataset_path p1 = false) :
    ∀ x ∈ (prefixesOf (parentOf p1)).filter (fun q => !elemP q fs.dirs),
      globMatch dataset_path datasetGlobPattern x = false := by
  intro x hx
  have hmem := (List.mem_filter.mp hx).1
  have hxp : pfxL x p1 = true :=
    pfxL_trans (pfxL_of_mem_prefixesOf hmem) (dropLast_pfxL p1)
  refine gm_false_of_not_under x ?_
  cases hrx : pfxL dataset_path x
  · rfl
  · have := pfxL_trans hrx hxp
    simp [this] at hroot1

theorem pfxL_p2_false_of_under {p2 q : FPath}
    (hroot2 : pfxL dataset_path p2 = false) (h2root : pfxL p2 dataset_path = false)
    (hq : pfxL dataset_path q = true) : pfxL p2 q = false := by
  cases hp2q : pfxL p2 q
  · rfl
  · rcases pfxL_total hq hp2q with h | h
    · simp [h] at hroot2
    · simp [h] at h2root

theorem stageFS_files_frame (fs : FS) (p1 p2 p3 : FPath)
    (hroot1 : pfxL dataset_path p1 = false)
    (hroot2 : pfxL dataset_path p2 = false)
    (h2root : pfxL p2 dataset_path = false) :
    ∀ q, pfxL dataset_path q = true →
      findA (stageFS fs p1 p2 p3).files q = findA fs.files q := by
  intro q hq
  have hne : q ≠ p1 := by
    intro he; subst he; simp [hq] at hroot1
  have h2q := pfxL_p2_false_of_under hroot2 h2root hq
  show findA (clearWS _ p2).files q = _
  rw [findA_files_clearWS _ _ _ h2q]
  show findA (setA (mkdirParents fs (parentOf p1)).files p1 _) q = _
  rw [findA_set_ne _ _ _ _ hne]
  rfl

theorem stageFS_glob (fs : FS) (p1 p2 p3 : FPath)
    (hroot1 : pfxL dataset_path p1 = false)
    (hroot2 : pfxL dataset_path p2 = false)
    (hroot3 : pfxL dataset_path p3 = false)
    (h2root : pfxL p2 dataset_path = false) :
    glob (stageFS fs p1 p2 p3) dataset_path datasetGlobPattern =
      glob fs dataset_path datasetGlobPattern := by
  have hkeep := gm_keep p2 hroot2 h2root
  have hgm1 : globMatch dataset_path datasetGlobPattern p1 = false :=
    gm_false_of_not_under p1 hroot1
  have hgm2 : globMatch dataset_path datasetGlobPattern p2 = false :=
    gm_false_of_not_under p2 hroot2
  have hgm3 : globMatch dataset_path datasetGlobPattern p3 = false :=
    gm_false_of_not_under p3 hroot3
  have hglist : globList (stageFS fs p1 p2 p3) dataset_path datasetGlobPattern =
      globList fs dataset_path datasetGlobPattern := by
    simp only [globList, allEntryPaths, List.filter_append]
    have hF : ((stageFS fs p1 p2 p3).files.map Prod.fst).filter
        (globMatch dataset_path datasetGlobPattern) =
        (fs.files.map Prod.fst).filter (globMatch dataset_path datasetGlobPattern) := by
      show ((clearWS _ p2).files.map Prod.fst).filter _ = _
      rw [filter_map_fst_files_clearWS _ _ _ hkeep]
      show ((setA (mkdirParents fs (parentOf p1)).files p1 _).map Prod.fst).filter _ = _
      rw [filter_map_fst_setA _ _ _ _ hgm1]
      rfl
    have hT : ((stageFS fs p1 p2 p3).tables.map Prod.fst).filter
        (globMatch dataset_path datasetGlobPattern) =
        (fs.tables.map Prod.fst).filter (globMatch dataset_path datasetGlobPattern) := by
      show ((clearWS _ p2).tables.map Prod.fst).filter _ = _
      rw [filter_map_fst_tables_clearWS _ _ _ hkeep]
      show ((setA fs.tables p3 _).map Prod.fst).filter _ = _
      rw [filter_map_fst_setA _ _ _ _ hgm3]
    have hD : ((stageFS fs p1 p2 p3).dirs).filter
        (globMatch dataset_path datasetGlobPattern) =
        fs.dirs.filter (globMatch dataset_path datasetGlobPattern) := by
      show (p2 :: (clearWS _ p2).dirs).filter _ = _
      rw [List.filter_cons, if_neg (by simp [hgm2])]
      rw [filter_dirs_clearWS _ _ _ hkeep]
      show ((fs.dirs ++ (prefixesOf (parentOf p1)).filter
        (fun q => !elemP q fs.dirs)).filter _) = _
      exact filter_append_none _ _ _ (mkdir_extra_not_under fs p1 hroot1)
    rw [hF, hT, hD]
  have hdir : isDir (stageFS fs p1 p2 p3) dataset_path = isDir fs dataset_path := by
    have hne2 : p2 ≠ dataset_path := ne_of_pfxL_false h2root
    show elemP dataset_path (p2 :: (clearWS _ p2).dirs) = _
    rw [elemP, if_neg hne2, elemP_dirs_clearWS _ _ _ h2root]
    show elemP dataset_path (fs.dirs ++ (prefixesOf (parentOf p1)).filter
      (fun q => !elemP q fs.dirs)) = _
    rw [elemP_append]
    have hextra : elemP dataset_path ((prefixesOf (parentOf p1)).filter
        (fun q => !elemP q fs.dirs)) = false := by
      refine elemP_false_of_not_mem ?_
      intro hmem
      have hxp : pfxL dataset_path p1 = true :=
        pfxL_trans (pfxL_of_mem_prefixesOf (List.mem_filter.mp hmem).1)
          (dropLast_pfxL p1)
      simp [hxp] at hroot1
    rw [hextra, Bool.or_false]
    rfl
  simp only [glob, hdir, hglist]

/-! ### Observations about the final state, and error shapes -/

theorem stageFS_tables (fs : FS) (p1 p2 p3 : FPath) (h23 : pfxL p2 p3 = false) :
    findA (stageFS fs p1 p2 p3).tables p3 =
      some ⟨loadRows fs (glob fs dataset_path datasetGlobPattern), 5⟩ := by
  show findA (clearWS _ p2).tables p3 = _
  rw [findA_tables_clearWS _ _ _ h23]
  exact findA_set_eq _ _ _

theorem stageFS_manifest (fs : FS) (p1 p2 p3 : FPath) (h21 : pfxL p2 p1 = false) :
    findA (stageFS fs p1 p2 p3).files p1 =
      some ⟨manifestContent (glob fs dataset_path datasetGlobPattern), []⟩ := by
  show findA (clearWS _ p2).files p1 = _
  rw [findA_files_clearWS _ _ _ h21]
  show findA (setA (mkdirParents fs (parentOf p1)).files p1 _) p1 = _
  exact findA_set_eq _ _ _

theorem stageFS_ws_dir (fs : FS) (p1 p2 p3 : FPath) :
    elemP p2 (stageFS fs p1 p2 p3).dirs = true := by
  show elemP p2 (p2 :: _) = true
  rw [elemP, if_pos rfl]

theorem manifestFS_parent_dirs (fs : FS) (p1 : FPath) :
    ∀ q ∈ prefixesOf (parentOf p1), elemP q (manifestFS fs p1).dirs = true := by
  intro q hq
  show elemP q (fs.dirs ++ (prefixesOf (parentOf p1)).filter
    (fun x => !elemP x fs.dirs)) = true
  rw [elemP_append]
  cases hd : elemP q fs.dirs
  · have hmem : q ∈ (prefixesOf (parentOf p1)).filter (fun x => !elemP x fs.dirs) :=
      List.mem_filter.mpr ⟨hq, by simp [hd]⟩
    simp [(elemP_iff_mem q _).mpr hmem]
  · simp

theorem writeTable_error_shape {fs : FS} {dest : FPath} {rows : List (FPath × GRec)}
    {ov : Bool} {parts : Nat} {e : Err}
    (h : writeTable fs dest rows ov parts = .error e) : e = Err.WriteError dest := by
  unfold writeTable at h
  split at h
  · injection h with h2; exact h2.symm
  · split at h
    · injection h with h2; exact h2.symm
    · exact absurd h (by simp)

theorem rawFeatRead_error_shape {fs : FS} {p : FPath} {e : Err}
    (h : rawFeatRead fs p = .error e) : e = Err.NotFoundError p := by
  unfold rawFeatRead at h
  cases hf : findA fs.tables p with
  | none => rw [hf] at h; injection h with h2; exact h2.symm
  | some t => rw [hf] at h; exact absurd h (by simp)

theorem loadFiles_error_shape (fs : FS) :
    ∀ (ds : List FPath) (e : Err), loadFiles fs ds true = .error e →
      ∃ p, e = Err.NotFoundError p
  | [], e, h => by exact absurd h (by simp [loadFiles])
  | p :: ps, e, h => by
    simp only [loadFiles] at h
    cases hf : findA fs.files p with
    | none =>
      rw [hf] at h
      injection h with h2
      exact ⟨p, h2.symm⟩
    | some fd =>
      rw [hf] at h
      simp only [if_true] at h
      cases hrec : loadFiles fs ps true with
      | error e2 =>
        rw [hrec] at h
        injection h with h2
        exact h2 ▸ loadFiles_error_shape fs ps e2 hrec
      | ok rest => rw [hrec] at h; exact absurd h (by simp)

theorem loadSmallFiles2_error_shape {fs : FS} {manifest : FPath} {dfType : String}
    {minParts : Nat} {e : Err}
    (h : loadSmallFiles2 fs manifest dfType minParts true = .error e) :
    ∃ p, e = Err.NotFoundError p := by
  unfold loadSmallFiles2 at h
  cases hf : findA fs.files manifest with
  | none => rw [hf] at h; injection h with h2; exact ⟨manifest, h2.symm⟩
  | some fd => rw [hf] at h; exact loadFiles_error_shape fs _ e h

theorem gbk_fail_load (fs : FS) (p1 p2 p3 : FPath) (e : Err)
    (hload : loadSmallFiles2 fs p1 "annotation" 5 true = .error e) :
    gbk_to_bigslice_app fs p1 p2 p3 = ⟨fs, [], some e, none⟩ := by
  simp only [gbk_to_bigslice_app, hload]

theorem gbk_fail_write (fs : FS) (p1 p2 p3 : FPath) (rows : List (FPath × GRec))
    (hload : loadSmallFiles2 fs p1 "annotation" 5 true = .ok rows)
    (hw3 : writable fs p3 = false) :
    gbk_to_bigslice_app fs p1 p2 p3 =
      ⟨fs, [Event.loadRecords p1 true 5], some (Err.WriteError p3), none⟩ := by
  have hwt : writeTable fs p3 rows true 5 = .error (.WriteError p3) := by
    simp [writeTable, hw3]
  simp only [gbk_to_bigslice_app, hload, hwt]

theorem gbk_fail_read (fs : FS) (p1 p2 p3 : FPath) (rows : List (FPath × GRec))
    (fs1 : FS) (e : Err)
    (hload : loadSmallFiles2 fs p1 "annotation" 5 true = .ok rows)
    (hw : writeTable fs p3 rows true 5 = .ok fs1)
    (hr : rawFeatRead (clearWS fs1 p2) p3 = .error e) :
    gbk_to_bigslice_app fs p1 p2 p3 =
      ⟨clearWS fs1 p2,
        [Event.loadRecords p1 true 5, Event.writeTable p3 true 5,
         Event.clearWorkspace p2], some e, none⟩ := by
  simp only [gbk_to_bigslice_app, hload, hw, hr]

theorem gbk_read_ok (fs : FS) (p1 p2 p3 : FPath) (rows : List (FPath × GRec))
    (fs1 : FS) (df : TableData)
    (hload : loadSmallFiles2 fs p1 "annotation" 5 true = .ok rows)
    (hw : writeTable fs p3 rows true 5 = .ok fs1)
    (hr : rawFeatRead (clearWS fs1 p2) p3 = .ok df) :
    gbk_to_bigslice_app fs p1 p2 p3 =
      ⟨{ clearWS fs1 p2 with dirs := p2 :: (clearWS fs1 p2).dirs },
        [Event.loadRecords p1 true 5, Event.writeTable p3 true 5,
         Event.clearWorkspace p2, Event.createApp p2 "antismash"],
        none, some ⟨df, "antismash"⟩⟩ := by
  have hc : bigsliceCreate (clearWS fs1 p2) p2 df "antismash" =
      .ok ({ clearWS fs1 p2 with dirs := p2 :: (clearWS fs1 p2).dirs },
        ⟨df, "antismash"⟩) := by
    simp [bigsliceCreate, entryExists_clearWS fs1 p2]
  simp only [gbk_to_bigslice_app, hload, hw, hr, hc]

theorem gbk_error_shape (fs : FS) (p1 p2 p3 : FPath) (e : Err)
    (h : (gbk_to_bigslice_app fs p1 p2 p3).error = some e) :
    (∃ p, e = Err.NotFoundError p) ∨ e = Err.WriteError p3 := by
  cases hl : loadSmallFiles2 fs p1 "annotation" 5 true with
  | error e1 =>
    rw [gbk_fail_load fs p1 p2 p3 e1 hl] at h
    simp only [Option.some.injEq] at h
    exact h ▸ Or.inl (loadSmallFiles2_error_shape hl)
  | ok rows =>
    cases hwr : writeTable fs p3 rows true 5 with
    | error e2 =>
      have hsh := writeTable_error_shape hwr
      subst hsh
      have hw3 : writable fs p3 = false := by
        by_contra hcon
        have hw3t : writable fs p3 = true := by
          cases hx : writable fs p3
          · exact absurd hx hcon
          · rfl
        have : writeTable fs p3 rows true 5 =
            .ok { fs with tables := setA fs.tables p3 ⟨rows, 5⟩ } := by
          simp [writeTable, hw3t]
        rw [this] at hwr
        exact absurd hwr (by simp)
      rw [gbk_fail_write fs p1 p2 p3 rows hl hw3] at h
      simp only [Option.some.injEq] at h
      exact h ▸ Or.inr rfl
    | ok fs1 =>
      cases hr : rawFeatRead (clearWS fs1 p2) p3 with
      | error e3 =>
        rw [gbk_fail_read fs p1 p2 p3 rows fs1 e3 hl hwr hr] at h
        simp only [Option.some.injEq] at h
        exact h ▸ Or.inl ⟨p3, rawFeatRead_error_shape hr⟩
      | ok df =>
        rw [gbk_read_ok fs p1 p2 p3 rows fs1 df hl hwr hr] at h
        exact absurd h (by simp)

theorem stagingRun_glue (fs : FS) (p1 p2 p3 : FPath) (hw1 : writable fs p1 = true)
    (r : RunResult) (hg : gbk_to_bigslice_app (manifestFS fs p1) p1 p2 p3 = r) :
    stagingRun fs p1 p2 p3 =
      ⟨r.fs, [Event.discover dataset_path datasetGlobPattern,
        Event.writeManifest p1] ++ r.trace, r.error, r.app⟩ := by
  simp only [stagingRun, manifestCell_ok fs p1 hw1, hg]

theorem stagingRun_fail1 (fs : FS) (p1 p2 p3 : FPath) (hw1 : writable fs p1 = false) :
    stagingRun fs p1 p2 p3 =
      ⟨mkdirParents fs (parentOf p1),
        [Event.discover dataset_path datasetGlobPattern],
        some (Err.IOError p1), none⟩ := by
  simp only [stagingRun, manifestCell_fail fs p1 hw1]

/-- Exhaustive case analysis of a staging run: exactly one of five outcomes,
one per failure point (manifest write, record load, table write, table read)
plus complete success. -/
theorem stagingRun_shape (fs : FS) (p1 p2 p3 : FPath) :
    (writable fs p1 = false ∧ stagingRun fs p1 p2 p3 =
      ⟨mkdirParents fs (parentOf p1),
        [Event.discover dataset_path datasetGlobPattern],
        some (Err.IOError p1), none⟩) ∨
    (∃ e, writable fs p1 = true ∧
      loadSmallFiles2 (manifestFS fs p1) p1 "annotation" 5 true = .error e ∧
      stagingRun fs p1 p2 p3 =
        ⟨manifestFS fs p1,
          [Event.discover dataset_path datasetGlobPattern, Event.writeManifest p1],
          some e, none⟩) ∨
    (∃ rows, writable fs p1 = true ∧ writable fs p3 = false ∧
      loadSmallFiles2 (manifestFS fs p1) p1 "annotation" 5 true = .ok rows ∧
      stagingRun fs p1 p2 p3 =
        ⟨manifestFS fs p1,
          [Event.discover dataset_path datasetGlobPattern, Event.writeManifest p1,
           Event.loadRecords p1 true 5],
          some (Err.WriteError p3), none⟩) ∨
    (∃ rows e, writable fs p1 = true ∧ writable fs p3 = true ∧
      loadSmallFiles2 (manifestFS fs p1) p1 "annotation" 5 true = .ok rows ∧
      rawFeatRead (clearWS (tableFS (manifestFS fs p1) p3 rows) p2) p3 = .error e ∧
      stagingRun fs p1 p2 p3 =
        ⟨clearWS (tableFS (manifestFS fs p1) p3 rows) p2,
          [Event.discover dataset_path datasetGlobPattern, Event.writeManifest p1,
           Event.loadRecords p1 true 5, Event.writeTable p3 true 5,
           Event.clearWorkspace p2],
          some e, none⟩) ∨
    (∃ rows df, writable fs p1 = true ∧ writable fs p3 = true ∧
      loadSmallFiles2 (manifestFS fs p1) p1 "annotation" 5 true = .ok rows ∧
      rawFeatRead (clearWS (tableFS (manifestFS fs p1) p3 rows) p2) p3 = .ok df ∧
      stagingRun fs p1 p2 p3 =
        ⟨gbkFS (manifestFS fs p1) p2 p3 rows, fullTrace p1 p2 p3,
          none, some ⟨df, "antismash"⟩⟩) := by
  by_cases hw1 : writable fs p1 = true
  · cases hl : loadSmallFiles2 (manifestFS fs p1) p1 "annotation" 5 true with
    | error e =>
      refine Or.inr (Or.inl ⟨e, hw1, rfl, ?_⟩)
      rw [stagingRun_glue fs p1 p2 p3 hw1 _
        (gbk_fail_load (manifestFS fs p1) p1 p2 p3 e hl)]
      rfl
    | ok rows =>
      by_cases hw3 : writable (manifestFS fs p1) p3 = true
      · have hwt : writeTable (manifestFS fs p1) p3 rows true 5 =
            .ok (tableFS (manifestFS fs p1) p3 rows) := by
          simp [writeTable, hw3, tableFS]
        cases hr : rawFeatRead (clearWS (tableFS (manifestFS fs p1) p3 rows) p2) p3 with
        | error e =>
          refine Or.inr (Or.inr (Or.inr (Or.inl ⟨rows, e, hw1, hw3, rfl, hr, ?_⟩)))
          rw [stagingRun_glue fs p1 p2 p3 hw1 _
            (gbk_fail_read (manifestFS fs p1) p1 p2 p3 rows _ e hl hwt hr)]
          rfl
        | ok df =>
          refine Or.inr (Or.inr (Or.inr (Or.inr ⟨rows, df, hw1, hw3, rfl, hr, ?_⟩)))
          rw [stagingRun_glue fs p1 p2 p3 hw1 _
            (gbk_read_ok (manifestFS fs p1) p1 p2 p3 rows _ df hl hwt hr)]
          rfl
      · have hw3f : writable (manifestFS fs p1) p3 = false := by
          cases hx : writable (manifestFS fs p1) p3
          · rfl
          · exact absurd hx hw3
        refine Or.inr (Or.inr (Or.inl ⟨rows, hw1, hw3f, rfl, ?_⟩))
        rw [stagingRun_glue fs p1 p2 p3 hw1 _
          (gbk_fail_write (manifestFS fs p1) p1 p2 p3 rows hl hw3f)]
        rfl
  · have hw1f : writable fs p1 = false := by
      cases hx : writable fs p1
      · rfl
      · exact absurd hx hw1
    exact Or.inl ⟨hw1f, stagingRun_fail1 fs p1 p2 p3 hw1f⟩

theorem stagingRun_error_shape (fs : FS) (p1 p2 p3 : FPath) (e : Err)
    (h : (stagingRun fs p1 p2 p3).error = some e) :
    e = Err.IOError p1 ∨ (∃ p, e = Err.NotFoundError p) ∨ e = Err.WriteError p3 := by
  rcases stagingRun_shape fs p1 p2 p3 with
    ⟨_, hrun⟩ | ⟨e1, _, hl, hrun⟩ | ⟨rows, _, _, _, hrun⟩ |
    ⟨rows, e1, _, _, _, hr, hrun⟩ | ⟨rows, df, _, _, _, _, hrun⟩
  · rw [hrun] at h
    simp only [Option.some.injEq] at h
    exact Or.inl h.symm
  · rw [hrun] at h
    simp only [Option.some.injEq] at h
    exact h ▸ Or.inr (Or.inl (loadSmallFiles2_error_shape hl))
  · rw [hrun] at h
    simp only [Option.some.injEq] at h
    exact Or.inr (Or.inr h.symm)
  · rw [hrun] at h
    simp only [Option.some.injEq] at h
    exact h ▸ Or.inr (Or.inl ⟨p3, rawFeatRead_error_shape hr⟩)
  · rw [hrun] at h
    exact absurd h (by simp)

theorem manifestContent_lines :
    ∀ ds : List FPath, ds.all validPath = true →
      splitOnC '\n' (manifestContent ds) = ds.map pathChars ++ [[]]
  | [], _ => rfl
  | d :: ds, h => by
    have hd : validPath d = true := by
      simp only [List.all_cons, Bool.and_eq_true] at h; exact h.1
    have hds : ds.all validPath = true := by
      simp only [List.all_cons, Bool.and_eq_true] at h; exact h.2
    simp [manifestContent, splitOnC_append '\n' _ _ (pathChars_no_nl d hd),
      manifestContent_lines ds hds]

/-! ### The claims -/

/-- C1: for every record set and destination, writing the table artifact twice
to the same destination with overwrite=true leaves exactly one artifact visible
afterwards, containing only the records of the second write; the old artifact
is fully replaced with no mixing of old and new partitions. -/
theorem C1_overwrite_replaces (fs fs1 fs2 : FS) (dest : FPath)
    (r1 r2 : List (FPath × GRec)) (n1 n2 : Nat)
    (_h1 : writeTable fs dest r1 true n1 = .ok fs1)
    (h2 : writeTable fs1 dest r2 true n2 = .ok fs2) :
    findA fs2.tables dest = some ⟨r2, n2⟩ ∧ countKey fs2.tables dest = 1 := by
  unfold writeTable at h2
  split at h2
  · exact absurd h2 (by simp)
  · split at h2
    · exact absurd h2 (by simp)
    · injection h2 with h3
      subst h3
      exact ⟨findA_set_eq _ _ _, countKey_setA _ _ _⟩

/-- C1 witness: a concrete double write with overwrite, checked end to end. -/
theorem C1_witness :
    findA fsC1b.tables wp3 = some ⟨rowsB, 5⟩ ∧ countKey fsC1b.tables wp3 = 1 :=
  C1_overwrite_replaces fsEmpty fsC1a fsC1b wp3 rowsA rowsB 3 5 rfl rfl

/-- C9: every invocation of the session-creation routine first stops any
pre-existing session (force-stop) and only then builds and returns the new one,
so exactly one session — the newly configured one — is active afterwards. -/
theorem C9_session_lifecycle (st : SparkState) (fs : FS) (m a : String)
    (ld : FPath) (c : Nat) (mem : String) (parts : Nat) :
    (start_new_spark_session st fs m a ld c mem parts).trace =
      [Event.stopSession, Event.buildSession m a c mem parts ld] ∧
    (start_new_spark_session st fs m a ld c mem parts).state.active =
      some ⟨m, a, c, mem, parts, ld⟩ ∧
    (start_new_spark_session st fs m a ld c mem parts).session =
      ⟨m, a, c, mem, parts, ld⟩ ∧
    activeCount (start_new_spark_session st fs m a ld c mem parts).state = 1 :=
  ⟨rfl, rfl, rfl, rfl⟩

/-- C4 (amended): when the root directory does not exist, file discovery
returns the empty sequence — the same successful outcome as zero matches — and
no error of any kind is raised. -/
theorem C4_missing_root_empty (fs : FS) (root : FPath) (pat : List String)
    (h : isDir fs root = false) :
    glob fs root pat = [] := by
  simp [glob, h]

/-- C4 witness: the empty file system has no dataset root, and discovery there
returns the empty list. -/
theorem C4_witness :
    isDir fsEmpty dataset_path = false ∧
    glob fsEmpty dataset_path datasetGlobPattern = [] :=
  ⟨by decide, C4_missing_root_empty fsEmpty dataset_path datasetGlobPattern (by decide)⟩

/-- C4 counterexample: on an empty file system the dataset root does not exist,
yet the source's discovery (CPython `Path.glob`) yields `[]` and the manifest
cell completes without error, while the claimed contract (`discoverSpec`, the
spec's File Discovery) demands a `NotFoundError` there. -/
theorem C4_counterexample :
    isDir fsEmpty dataset_path = false ∧
    glob fsEmpty dataset_path datasetGlobPattern = [] ∧
    discoverSpec fsEmpty dataset_path datasetGlobPattern =
      .error (Err.NotFoundError dataset_path) ∧
    (manifestCell fsEmpty wp1).error = none := by
  exact ⟨rfl, rfl, rfl, rfl⟩

/-- C8: when zero files match under an existing root, the manifest file is
still created at the destination, is empty (it lists no paths), and the
operation is a success, not an error. -/
theorem C8_empty_match_ok (fs : FS) (p1 : FPath)
    (hempty : glob fs dataset_path datasetGlobPattern = [])
    (hw1 : writable fs p1 = true) :
    (manifestCell fs p1).error = none ∧
    findA (manifestCell fs p1).fs.files p1 = some ⟨[], []⟩ ∧
    manifestPaths [] = [] := by
  rw [manifestCell_ok fs p1 hw1]
  refine ⟨rfl, ?_, rfl⟩
  have h : findA (manifestFS fs p1).files p1 =
      some ⟨manifestContent (glob fs dataset_path datasetGlobPattern), []⟩ := by
    show findA (setA (mkdirParents fs (parentOf p1)).files p1 _) p1 = _
    exact findA_set_eq _ _ _
  show findA (manifestFS fs p1).files p1 = some ⟨[], []⟩
  rw [h, hempty]
  rfl

/-- C8 witness: an existing but fileless dataset directory yields an empty
manifest and a successful run. -/
theorem C8_witness :
    (manifestCell fsOnlyRoot wp1).error = none ∧
    findA (manifestCell fsOnlyRoot wp1).fs.files wp1 = some ⟨[], []⟩ ∧
    manifestPaths [] = [] :=
  C8_empty_match_ok fsOnlyRoot wp1 (by decide) (by decide)

/-- C2: for every non-empty set of files matched by the glob pattern under the
root directory, the produced manifest has exactly one newline-terminated line
per matched file, each line being that file's path; every listed path exists at
manifest-write time; the manifest's parent directories are created; and any
previous manifest at the destination is overwritten (the stored content depends
only on the current match set). -/
theorem C2_manifest_one_line_per_file (fs : FS) (p1 : FPath)
    (hv : (glob fs dataset_path datasetGlobPattern).all validPath = true)
    (hw1 : writable fs p1 = true)
    (_hne : glob fs dataset_path datasetGlobPattern ≠ []) :
    (manifestCell fs p1).error = none ∧
    findA (manifestCell fs p1).fs.files p1 =
      some ⟨manifestContent (glob fs dataset_path datasetGlobPattern), []⟩ ∧
    splitOnC '\n' (manifestContent (glob fs dataset_path datasetGlobPattern)) =
      (glob fs dataset_path datasetGlobPattern).map pathChars ++ [[]] ∧
    (∀ p ∈ glob fs dataset_path datasetGlobPattern,
      entryExists (manifestCell fs p1).fs p = true) ∧
    (∀ q ∈ prefixesOf (parentOf p1), elemP q (manifestCell fs p1).fs.dirs = true) := by
  rw [manifestCell_ok fs p1 hw1]
  refine ⟨rfl, ?_, manifestContent_lines _ hv, ?_, ?_⟩
  · show findA (setA (mkdirParents fs (parentOf p1)).files p1 _) p1 = _
    exact findA_set_eq _ _ _
  · intro p hp
    exact entryExists_manifestFS fs p1 p
      (entryExists_of_mem fs p (glob_mem_entries hp))
  · exact manifestFS_parent_dirs fs p1

/-- C2 witness: one matching region file yields a one-line manifest whose line
is that file's path. -/
theorem C2_witness :
    (manifestCell fsW wp1).error = none ∧
    splitOnC '\n' (manifestContent (glob fsW dataset_path datasetGlobPattern)) =
      (glob fsW dataset_path datasetGlobPattern).map pathChars ++ [[]] ∧
    glob fsW dataset_path datasetGlobPattern = [regionFile] :=
  ⟨(C2_manifest_one_line_per_file fsW wp1 (by decide) (by decide) (by decide)).1,
   (C2_manifest_one_line_per_file fsW wp1 (by decide) (by decide) (by decide)).2.2.1,
   by decide⟩

/-- C7: in every run, the application is never constructed while a workspace
from a prior run still exists: the run can never fail with the builder's
"workspace exists" error, and the delete-if-exists step always leaves the
workspace path absent. -/
theorem C7_no_stale_workspace (fs : FS) (p1 p2 p3 : FPath) (s : String) :
    (stagingRun fs p1 p2 p3).error ≠ some (Err.ExternalCollaboratorError s) ∧
    entryExists (clearWS fs p2) p2 = false := by
  refine ⟨?_, entryExists_clearWS fs p2⟩
  intro h
  rcases stagingRun_error_shape fs p1 p2 p3 _ h with h1 | ⟨p, h1⟩ | h1 <;>
    simp at h1

/-- C7 witness: concrete run, concrete workspace. -/
theorem C7_witness :
    (stagingRun fsW wp1 wp2 wp3).error ≠
      some (Err.ExternalCollaboratorError "workspace exists") ∧
    entryExists (clearWS fsW wp2) wp2 = false :=
  C7_no_stale_workspace fsW wp1 wp2 wp3 "workspace exists"

/-- C10: the record loader is invoked with skip_malformed_record=True (the
trace records the flag), so staging succeeds even when input files contain
malformed records, and the table receives exactly the well-formed records of
the matched files — every row written is well-formed. -/
theorem C10_skip_malformed (fs : FS) (p1 p2 p3 : FPath)
    (hv : (glob fs dataset_path datasetGlobPattern).all validPath = true)
    (hfound : (glob fs dataset_path datasetGlobPattern).all
        (fun p => (findA fs.files p).isSome) = true)
    (hw1 : writable fs p1 = true) (hw3 : writable fs p3 = true)
    (h23 : pfxL p2 p3 = false) (hroot1 : pfxL dataset_path p1 = false) :
    (stagingRun fs p1 p2 p3).error = none ∧
    Event.loadRecords p1 true 5 ∈ (stagingRun fs p1 p2 p3).trace ∧
    findA (stagingRun fs p1 p2 p3).fs.tables p3 =
      some ⟨loadRows fs (glob fs dataset_path datasetGlobPattern), 5⟩ ∧
    (∀ pr ∈ loadRows fs (glob fs dataset_path datasetGlobPattern),
      pr.2.ok = true) := by
  have hrun := stagingRun_ok fs p1 p2 p3 hv hfound hw1 hw3 h23 hroot1
  rw [hrun]
  refine ⟨rfl, by simp [fullTrace], ?_, loadRows_all_ok fs _⟩
  exact stageFS_tables fs p1 p2 p3 h23

/-- C10 witness: the sample region file has one malformed record; the run
succeeds and only the well-formed record reaches the table. -/
theorem C10_witness :
    (stagingRun fsW wp1 wp2 wp3).error = none ∧
    findA (stagingRun fsW wp1 wp2 wp3).fs.tables wp3 =
      some ⟨loadRows fsW (glob fsW dataset_path datasetGlobPattern), 5⟩ ∧
    loadRows fsW (glob fsW dataset_path datasetGlobPattern) =
      [(regionFile, ⟨"BGC0001", true⟩)] :=
  ⟨(C10_skip_malformed fsW wp1 wp2 wp3 (by decide) (by decide) (by decide)
      (by decide) (by decide) (by decide)).1,
   (C10_skip_malformed fsW wp1 wp2 wp3 (by decide) (by decide) (by decide)
      (by decide) (by decide) (by decide)).2.2.1,
   by decide⟩

/-- C6 (amended): the staging pipeline exposes only the three paths — manifest
destination, application workspace, table destination — as caller-supplied
parameters, and they flow to their respective steps; the root directory, glob
pattern, overwrite flag (true), partition count (5), and source-type tag
("antismash") used by every run are fixed constants of the code, the same in
every trace regardless of the caller's arguments. -/
theorem C6_config_surface (fs : FS) (p1 p2 p3 : FPath) :
    (∀ r pt, Event.discover r pt ∈ (stagingRun fs p1 p2 p3).trace →
      r = dataset_path ∧ pt = datasetGlobPattern) ∧
    (∀ d, Event.writeManifest d ∈ (stagingRun fs p1 p2 p3).trace → d = p1) ∧
    (∀ m sk mp, Event.loadRecords m sk mp ∈ (stagingRun fs p1 p2 p3).trace →
      m = p1 ∧ sk = true ∧ mp = 5) ∧
    (∀ dest ov n, Event.writeTable dest ov n ∈ (stagingRun fs p1 p2 p3).trace →
      dest = p3 ∧ ov = true ∧ n = 5) ∧
    (∀ ws s, Event.createApp ws s ∈ (stagingRun fs p1 p2 p3).trace →
      ws = p2 ∧ s = "antismash") := by
  rcases stagingRun_shape fs p1 p2 p3 with
    ⟨_, hrun⟩ | ⟨e, _, _, hrun⟩ | ⟨rows, _, _, _, hrun⟩ |
    ⟨rows, e, _, _, _, _, hrun⟩ | ⟨rows, df, _, _, _, _, hrun⟩ <;>
  rw [hrun] <;>
  refine ⟨?_, ?_, ?_, ?_, ?_⟩ <;>
  · intros
    simp_all [fullTrace]

/-- C6 counterexample: two runs with entirely different caller-supplied
arguments still discover under the same hard-coded root with the same
hard-coded pattern, write the table with overwrite=true and 5 partitions, and
tag the application "antismash" — so root directory, glob pattern, overwrite
flag, partition count and source-type tag are not caller-supplied parameters
that could be varied. -/
theorem C6_counterexample :
    (stagingRun fsW wp1 wp2 wp3).trace = fullTrace wp1 wp2 wp3 ∧
    (stagingRun fsOnlyRoot ["m"] ["w"] ["t"]).trace = fullTrace ["m"] ["w"] ["t"] ∧
    Event.discover dataset_path datasetGlobPattern ∈
      (stagingRun fsW wp1 wp2 wp3).trace ∧
    Event.discover dataset_path datasetGlobPattern ∈
      (stagingRun fsOnlyRoot ["m"] ["w"] ["t"]).trace ∧
    Event.writeTable wp3 true 5 ∈ (stagingRun fsW wp1 wp2 wp3).trace ∧
    Event.writeTable ["t"] true 5 ∈ (stagingRun fsOnlyRoot ["m"] ["w"] ["t"]).trace ∧
    Event.createApp wp2 "antismash" ∈ (stagingRun fsW wp1 wp2 wp3).trace ∧
    Event.createApp ["w"] "antismash" ∈
      (stagingRun fsOnlyRoot ["m"] ["w"] ["t"]).trace ∧
    dataset_path = ["home", "matinnu", "datadrive", "vol_atlas_server", "datasets"] := by
  decide

/-- C3: the staging entry point executes discover → write manifest → load
records → write table → clear workspace → construct application strictly in
this order: every run's trace is a prefix of the full sequence and equals it
exactly on success; on failure the remaining steps are skipped (the trace is
proper), completed artifacts (manifest, table) remain on disk with no rollback,
and the first failing step's error is propagated unmodified — a manifest-write
failure surfaces as its `IOError` with nothing else run, and a table-write
failure surfaces as its `WriteError` with the manifest still on disk. -/
theorem C3_sequencing (fs : FS) (p1 p2 p3 : FPath)
    (h21 : pfxL p2 p1 = false) (h23 : pfxL p2 p3 = false) :
    isPrefixL (stagingRun fs p1 p2 p3).trace (fullTrace p1 p2 p3) = true ∧
    ((stagingRun fs p1 p2 p3).error = none ↔
      (stagingRun fs p1 p2 p3).trace = fullTrace p1 p2 p3) ∧
    (Event.writeManifest p1 ∈ (stagingRun fs p1 p2 p3).trace →
      findA (stagingRun fs p1 p2 p3).fs.files p1 =
        some ⟨manifestContent (glob fs dataset_path datasetGlobPattern), []⟩) ∧
    (Event.writeTable p3 true 5 ∈ (stagingRun fs p1 p2 p3).trace →
      (findA (stagingRun fs p1 p2 p3).fs.tables p3).isSome = true) ∧
    (writable fs p1 = false →
      stagingRun fs p1 p2 p3 =
        ⟨mkdirParents fs (parentOf p1),
          [Event.discover dataset_path datasetGlobPattern],
          some (Err.IOError p1), none⟩) ∧
    (∀ rows, writable fs p1 = true → writable fs p3 = false →
      loadSmallFiles2 (manifestFS fs p1) p1 "annotation" 5 true = .ok rows →
      stagingRun fs p1 p2 p3 =
        ⟨manifestFS fs p1,
          [Event.discover dataset_path datasetGlobPattern, Event.writeManifest p1,
           Event.loadRecords p1 true 5],
          some (Err.WriteError p3), none⟩) := by
  rcases stagingRun_shape fs p1 p2 p3 with
    ⟨hw1f, hrun⟩ | ⟨e, hw1, hl, hrun⟩ | ⟨rows0, hw1, hw3f, hl, hrun⟩ |
    ⟨rows0, e, hw1, hw3, hl, hr, hrun⟩ | ⟨rows0, df, hw1, hw3, hl, hr, hrun⟩ <;>
  rw [hrun]
  · refine ⟨by simp [isPrefixL, fullTrace], ?_, ?_, ?_, ?_, ?_⟩
    · exact ⟨fun h => by simp at h, fun h => by simp [fullTrace] at h⟩
    · intro hm; simp at hm
    · intro hm; simp at hm
    · intro _; rfl
    · intro rows hw1' hw3' hl'
      rw [hw1'] at hw1f
      exact absurd hw1f (by simp)
  · refine ⟨by simp [isPrefixL, fullTrace], ?_, ?_, ?_, ?_, ?_⟩
    · exact ⟨fun h => by simp at h, fun h => by simp [fullTrace] at h⟩
    · intro _
      show findA (setA (mkdirParents fs (parentOf p1)).files p1 _) p1 = _
      exact findA_set_eq _ _ _
    · intro hm; simp at hm
    · intro hf
      rw [hf] at hw1
      exact absurd hw1 (by simp)
    · intro rows hw1' hw3' hl'
      rw [hl'] at hl
      exact absurd hl (by simp)
  · refine ⟨by simp [isPrefixL, fullTrace], ?_, ?_, ?_, ?_, ?_⟩
    · exact ⟨fun h => by simp at h, fun h => by simp [fullTrace] at h⟩
    · intro _
      show findA (setA (mkdirParents fs (parentOf p1)).files p1 _) p1 = _
      exact findA_set_eq _ _ _
    · intro hm; simp at hm
    · intro hf
      rw [hf] at hw1
      exact absurd hw1 (by simp)
    · intro rows hw1' hw3' hl'
      rfl
  · exfalso
    have ht : findA (clearWS (tableFS (manifestFS fs p1) p3 rows0) p2).tables p3 =
        some ⟨rows0, 5⟩ := by
      rw [findA_tables_clearWS _ _ _ h23]
      exact findA_set_eq _ _ _
    simp [rawFeatRead, ht] at hr
  · refine ⟨isPrefixL_refl _, ⟨fun _ => rfl, fun _ => rfl⟩, ?_, ?_, ?_, ?_⟩
    · intro _
      show findA (clearWS (tableFS (manifestFS fs p1) p3 rows0) p2).files p1 = _
      rw [findA_files_clearWS _ _ _ h21]
      show findA (setA (mkdirParents fs (parentOf p1)).files p1 _) p1 = _
      exact findA_set_eq _ _ _
    · intro _
      show (findA (clearWS (tableFS (manifestFS fs p1) p3 rows0) p2).tables
        p3).isSome = true
      rw [findA_tables_clearWS _ _ _ h23]
      show (findA (setA (manifestFS fs p1).tables p3 ⟨rows0, 5⟩) p3).isSome = true
      rw [findA_set_eq]
      rfl
    · intro hf
      rw [hf] at hw1
      exact absurd hw1 (by simp)
    · intro rows hw1' hw3' hl'
      rw [hw3'] at hw3
      exact absurd hw3 (by simp)

/-- C3 witness: a successful concrete run has the exact full trace, and its
manifest and table are on disk afterwards. -/
theorem C3_witness :
    pfxL wp2 wp1 = false ∧ pfxL wp2 wp3 = false ∧
    isPrefixL (stagingRun fsW wp1 wp2 wp3).trace (fullTrace wp1 wp2 wp3) = true ∧
    ((stagingRun fsW wp1 wp2 wp3).error = none ↔
      (stagingRun fsW wp1 wp2 wp3).trace = fullTrace wp1 wp2 wp3) :=
  ⟨by decide, by decide,
   (C3_sequencing fsW wp1 wp2 wp3 (by decide) (by decide)).1,
   (C3_sequencing fsW wp1 wp2 wp3 (by decide) (by decide)).2.1⟩

/-- C6 witness: applying the amended claim to a concrete run whose discover
event is in the trace. -/
theorem C6_witness :
    Event.discover dataset_path datasetGlobPattern ∈
      (stagingRun fsOnlyRoot ["m"] ["w"] ["t"]).trace ∧
    (dataset_path = dataset_path ∧ datasetGlobPattern = datasetGlobPattern) :=
  ⟨by decide, (C6_config_surface fsOnlyRoot ["m"] ["w"] ["t"]).1 dataset_path
    datasetGlobPattern (by decide)⟩

/-- C5: with the output destinations disjoint from the dataset directory,
running the full staging sequence twice is idempotent — both runs succeed and
the final manifest contents and table-artifact contents after the second run
are identical to those after the first, a function only of the state of the
input directory. -/
theorem C5_staging_idempotent (fs : FS) (p1 p2 p3 : FPath)
    (hv : (glob fs dataset_path datasetGlobPattern).all validPath = true)
    (hfound : (glob fs dataset_path datasetGlobPattern).all
        (fun p => (findA fs.files p).isSome) = true)
    (hw1 : writable fs p1 = true) (hw3 : writable fs p3 = true)
    (h21 : pfxL p2 p1 = false) (h23 : pfxL p2 p3 = false)
    (hroot1 : pfxL dataset_path p1 = false)
    (hroot2 : pfxL dataset_path p2 = false)
    (hroot3 : pfxL dataset_path p3 = false)
    (h2root : pfxL p2 dataset_path = false) :
    (stagingRun fs p1 p2 p3).error = none ∧
    (stagingRun (stagingRun fs p1 p2 p3).fs p1 p2 p3).error = none ∧
    findA (stagingRun (stagingRun fs p1 p2 p3).fs p1 p2 p3).fs.files p1 =
      findA (stagingRun fs p1 p2 p3).fs.files p1 ∧
    findA (stagingRun (stagingRun fs p1 p2 p3).fs p1 p2 p3).fs.tables p3 =
      findA (stagingRun fs p1 p2 p3).fs.tables p3 := by
  have hrun1 := stagingRun_ok fs p1 p2 p3 hv hfound hw1 hw3 h23 hroot1
  have hglob := stageFS_glob fs p1 p2 p3 hroot1 hroot2 hroot3 h2root
  have hframe := stageFS_files_frame fs p1 p2 p3 hroot1 hroot2 h2root
  have hv2 : (glob (stageFS fs p1 p2 p3) dataset_path datasetGlobPattern).all
      validPath = true := by rw [hglob]; exact hv
  have hfound2 : (glob (stageFS fs p1 p2 p3) dataset_path datasetGlobPattern).all
      (fun p => (findA (stageFS fs p1 p2 p3).files p).isSome) = true := by
    rw [hglob]
    rw [List.all_eq_true] at hfound ⊢
    intro p hp
    have hfr := hframe p (glob_mem_under hp)
    simp only [hfr]
    exact hfound p hp
  have hw1b : writable (stageFS fs p1 p2 p3) p1 = true := by
    rw [writable_stageFS]; exact hw1
  have hw3b : writable (stageFS fs p1 p2 p3) p3 = true := by
    rw [writable_stageFS]; exact hw3
  have hrun2 := stagingRun_ok (stageFS fs p1 p2 p3) p1 p2 p3 hv2 hfound2
    hw1b hw3b h23 hroot1
  have hrows : loadRows (stageFS fs p1 p2 p3)
      (glob (stageFS fs p1 p2 p3) dataset_path datasetGlobPattern) =
      loadRows fs (glob fs dataset_path datasetGlobPattern) := by
    rw [hglob]
    exact loadRows_congr _ _ _ (fun p hp => hframe p (glob_mem_under hp))
  refine ⟨?_, ?_, ?_, ?_⟩
  · rw [hrun1]
  · rw [hrun1]
    show (stagingRun (stageFS fs p1 p2 p3) p1 p2 p3).error = none
    rw [hrun2]
  · rw [hrun1]
    show findA (stagingRun (stageFS fs p1 p2 p3) p1 p2 p3).fs.files p1 =
      findA (stageFS fs p1 p2 p3).files p1
    rw [hrun2]
    show findA (stageFS (stageFS fs p1 p2 p3) p1 p2 p3).files p1 = _
    rw [stageFS_manifest _ p1 p2 p3 h21, stageFS_manifest _ p1 p2 p3 h21, hglob]
  · rw [hrun1]
    show findA (stagingRun (stageFS fs p1 p2 p3) p1 p2 p3).fs.tables p3 =
      findA (stageFS fs p1 p2 p3).tables p3
    rw [hrun2]
    show findA (stageFS (stageFS fs p1 p2 p3) p1 p2 p3).tables p3 = _
    rw [stageFS_tables _ p1 p2 p3 h23, stageFS_tables _ p1 p2 p3 h23, hrows]

/-- C5 witness: concrete double run on the sample dataset. -/
theorem C5_witness :
    (stagingRun fsW wp1 wp2 wp3).error = none ∧
    (stagingRun (stagingRun fsW wp1 wp2 wp3).fs wp1 wp2 wp3).error = none ∧
    findA (stagingRun (stagingRun fsW wp1 wp2 wp3).fs wp1 wp2 wp3).fs.tables wp3 =
      findA (stagingRun fsW wp1 wp2 wp3).fs.tables wp3 :=
  ⟨(C5_staging_idempotent fsW wp1 wp2 wp3 (by decide) (by decide) (by decide)
      (by decide) (by decide) (by decide) (by decide) (by decide) (by decide)
      (by decide)).1,
   (C5_staging_idempotent fsW wp1 wp2 wp3 (by decide) (by decide) (by decide)
      (by decide) (by decide) (by decide) (by decide) (by decide) (by decide)
      (by decide)).2.1,
   (C5_staging_idempotent fsW wp1 wp2 wp3 (by decide) (by decide) (by decide)
      (by decide) (by decide) (by decide) (by decide) (by decide) (by decide)
      (by decide)).2.2.2⟩

end LearnAxolotl
